import Mathlib

/-!
Verification of the rehex document-model specification against the sources.

The development shallowly embeds the relevant parts of the repository:

* `src/util.hpp` — the clamped addition helpers (`_add_clamp_overflow`).
* `src/DocumentCtrl.cpp` — the selection state machine
  (`set_selection`, `clear_selection`, `get_selection_raw`).
* `src/CharacterFinder.cpp` — the character-range lookup
  (`get_char_range`, `get_char_start`, `get_char_length`).
* `src/document.hpp` — the `Document` metadata-and-transaction core.  Only the
  header (declarations, the `Transaction` structure and `UNDO_MAX`) is part of
  the sources; the implementation file is absent, so the behaviour of the
  primitive edits, the undo machinery and the range structures is modelled
  from the specification (each such definition is marked
  "Modelled from the spec").

Machine integers (`off_t`, `size_t`) are embedded as `Int`/`Nat`; byte buffers
as `List Nat`.
-/

namespace REHexProof

/-! ## util.hpp: clamped addition (src/util.hpp lines 229-303) -/

/-- Embedding of `_add_clamp_overflow<T>(a, b, overflow, T_min, T_max, T_zero)`
from `src/util.hpp`.  The C++ template is instantiated at an integral type with
bounds `T_min`/`T_max`; we model the values as unbounded `Int` together with
the explicit bounds, and return the pair (result, overflow flag) instead of
writing the flag through a pointer. -/
def add_clamp_overflow (a b Tmin Tmax : Int) : Int × Bool :=
  if (a < 0) ≠ (b < 0) then
    /- a and b have differing signs - can't overflow -/
    (a + b, false)
  else if a < 0 then
    /- a and b are negative -/
    if Tmin - b ≤ a then
      (a + b, false)
    else
      (Tmin, true)
  else
    /- a and b are positive -/
    if Tmax - b ≥ a then
      (a + b, false)
    else
      (Tmax, true)

/-! ## DocumentCtrl.cpp: selection state (src/DocumentCtrl.cpp lines 456-507) -/

/-- The selection-related fields of `REHex::DocumentCtrl`. -/
structure Selection where
  selection_off : Int
  selection_length : Int
  selection_begin : Int
  selection_end : Int
  mouse_shift_initial : Int
  deriving DecidableEq, Repr

/-- Embedding of `DocumentCtrl::set_selection(off, length)`
(src/DocumentCtrl.cpp lines 456-483).  Event posting and repainting are
GUI-only side effects and have no counterpart in the state. -/
def set_selection (s : Selection) (off length : Int) : Selection :=
  let s1 : Selection :=
    if length > 0 then
      { s with selection_off := off, selection_length := length,
               selection_begin := off, selection_end := off + length - 1 }
    else
      { s with selection_off := off, selection_length := length,
               selection_begin := -1, selection_end := -1 }
  if length ≤ 0 ∨ s1.mouse_shift_initial < off ∨ s1.mouse_shift_initial > off + length then
    { s1 with mouse_shift_initial := -1 }
  else
    s1

/-- Embedding of `DocumentCtrl::clear_selection()`
(src/DocumentCtrl.cpp lines 485-488): delegates to `set_selection(0, 0)`. -/
def clear_selection (s : Selection) : Selection :=
  set_selection s 0 0

/-- Embedding of `DocumentCtrl::get_selection_raw()`
(src/DocumentCtrl.cpp lines 497-507). -/
def get_selection_raw (s : Selection) : Int × Int :=
  if s.selection_begin < 0 then
    (-1, -1)
  else
    (s.selection_begin, s.selection_end)

/-! ## CharacterFinder.cpp: character range lookup (src/CharacterFinder.cpp) -/

/-- The state of a `REHex::CharacterFinder` (src/CharacterFinder.cpp).
`t1` is the chunk-boundary table (an entry of `-1` marks a slot the worker
thread has not filled yet) and `t2` the per-chunk character-offset cache,
keyed by the chunk's base offset. -/
structure CharacterFinder where
  base : Int
  length : Int
  chunk_size : Int
  t1 : List Int
  t2 : List (Int × List Int)
  deriving DecidableEq, Repr

/-- Lookup in the `t2` LRU cache (`LRUCache::get`). -/
def t2Lookup (cache : List (Int × List Int)) (k : Int) : Option (List Int) :=
  (cache.find? (fun e => e.1 = k)).map (·.2)

/-- Insertion into the `t2` LRU cache (`LRUCache::set`); the new entry becomes
the most recently used one. -/
def t2Set (cache : List (Int × List Int)) (k : Int) (v : List Int) : List (Int × List Int) :=
  (k, v) :: cache.filter (fun e => !(e.1 == k))

/-- The chunk-scanning loop of `CharacterFinder::get_char_range`
(src/CharacterFinder.cpp lines 256-270), which records the offset (relative to
`t2_base`) of each character start in the chunk.  `decodeLen o` abstracts the
external character-encoder collaborator: the size that `encoder->decode` would
report for the character starting at absolute offset `o` (`ec.valid ?
ec.encoded_char().size() : encoder->word_size`).  The C++ loop is bounded by
the number of bytes read; the `fuel` argument plays that role and is chosen
large enough to cover every terminating run of the source loop. -/
def buildT2Elem (decodeLen : Int → Int) (t2_base t2_end data_len : Int) : List Int :=
  go ((t2_end - t2_base).toNat + 1) t2_base 0
where
  go : Nat → Int → Int → List Int
    | 0, _, _ => []
    | fuel + 1, t2_off, data_off =>
      if t2_off < t2_end ∧ data_off < data_len then
        (t2_off - t2_base) ::
          go fuel (t2_off + max (decodeLen t2_off) 1) (data_off + max (decodeLen t2_off) 1)
      else
        []

/-- The tail of `CharacterFinder::get_char_range`
(src/CharacterFinder.cpp lines 280-295): `std::upper_bound` over the chunk's
character-start offsets and the construction of the returned
(start, length) pair.  `std::prev` of `begin()` is undefined behaviour in the
source (guarded there by an assertion that the element list is non-empty); the
embedding returns `(-1, -1)` in that unreachable case. -/
def charRangeFromElem (elem : List Int) (t2_base t2_end offset : Int) : Int × Int :=
  let rel := offset - t2_base
  let nexts := elem.filter (fun x => rel < x)
  let prevs := elem.filter (fun x => x ≤ rel)
  match prevs.getLast? with
  | none => (-1, -1)
  | some this_off =>
    let abs_this := this_off + t2_base
    match nexts with
    | next :: _ => (abs_this, next - this_off)
    | [] => if t2_base < t2_end then (abs_this, t2_end - abs_this) else (-1, -1)

/-- Embedding of `CharacterFinder::get_char_range(offset)`
(src/CharacterFinder.cpp lines 178-296).  The mutation of the `t2` cache is
made explicit by returning the updated `CharacterFinder` alongside the result.
`decodeLen` abstracts the external encoder collaborator (see `buildT2Elem`)
and `read_ok` whether `document->read_data` succeeds (on an exception the
source logs and returns `(-1, -1)` without touching the caches).  The read is
modelled as returning the full requested extent. -/
def get_char_range (cf : CharacterFinder) (decodeLen : Int → Int) (read_ok : Bool)
    (offset : Int) : (Int × Int) × CharacterFinder :=
  if offset < cf.base ∨ offset ≥ cf.base + cf.length then
    /- Not in range tracked by this CharacterFinder. -/
    ((-1, -1), cf)
  else
    let t1_idx : Int := (offset - cf.base) / cf.chunk_size - 1
    let t2_base_offset : Int := if t1_idx ≥ 0 then cf.t1.getD t1_idx.toNat (-1) else cf.base
    if t2_base_offset < 0 then
      /- t1 slot not filled yet. -/
      ((-1, -1), cf)
    else
      let p : Int × Int :=
        if t2_base_offset > offset then
          let i := t1_idx - 1
          (i, if i ≥ 0 then cf.t1.getD i.toNat (-1) else cf.base)
        else
          (t1_idx, t2_base_offset)
      let t2_end_offset : Int :=
        if p.1 + 1 < (cf.t1.length : Int) then cf.t1.getD (p.1 + 1).toNat (-1)
        else cf.base + cf.length
      if t2_end_offset < 0 then
        /- t1 slot not filled yet. -/
        ((-1, -1), cf)
      else
        match t2Lookup cf.t2 p.2 with
        | some elem => (charRangeFromElem elem p.2 t2_end_offset offset, cf)
        | none =>
          if read_ok then
            let elem := buildT2Elem decodeLen p.2 t2_end_offset (t2_end_offset - p.2)
            (charRangeFromElem elem p.2 t2_end_offset offset,
             { cf with t2 := t2Set cf.t2 p.2 elem })
          else
            ((-1, -1), cf)

/-- Embedding of `CharacterFinder::get_char_start(offset)`
(src/CharacterFinder.cpp lines 298-301). -/
def get_char_start (cf : CharacterFinder) (decodeLen : Int → Int) (read_ok : Bool)
    (offset : Int) : Int :=
  (get_char_range cf decodeLen read_ok offset).1.1

/-- Embedding of `CharacterFinder::get_char_length(offset)`
(src/CharacterFinder.cpp lines 303-306). -/
def get_char_length (cf : CharacterFinder) (decodeLen : Int → Int) (read_ok : Bool)
    (offset : Int) : Int :=
  (get_char_range cf decodeLen read_ok offset).1.2

/-! ## The Document metadata-and-transaction core

`src/document.hpp` declares the `Document` class, its `Transaction` structure
and `UNDO_MAX = 64`, but the implementation file and the range-structure
headers (`ByteRangeMap.hpp`, `NestedOffsetLengthMap.hpp`) are not among the
sources.  The definitions below are therefore modelled from the specification
(sections 3, 4 and 7), using the header's declarations (signatures, the
`Transaction` snapshot fields, `UNDO_MAX`) wherever they pin the behaviour
down. -/

/-- Modelled from the spec: `ByteRangeMap<T>` (spec section 3 "RangeMap<T>"),
an ordered sequence of `((offset, length), value)` entries over a linear
byte address space. -/
abbrev RangeMap (T : Type) := List ((Nat × Nat) × T)

/-- Modelled from the spec: `get(offset)` on a `RangeMap` (spec section 4.1),
returning the value of the first entry whose half-open range contains `x`, or
`none` ("absent"). -/
def rmValAt {T : Type} (m : RangeMap T) (x : Nat) : Option T :=
  match m with
  | [] => none
  | e :: rest => if e.1.1 ≤ x ∧ x < e.1.1 + e.1.2 then some e.2 else rmValAt rest x

/-- Modelled from the spec: `get_range(offset)` on a `RangeMap` — the first
entry whose half-open range contains `x`, together with its range. -/
def rmFindSeg {T : Type} (m : RangeMap T) (x : Nat) : Option ((Nat × Nat) × T) :=
  match m with
  | [] => none
  | e :: rest => if e.1.1 ≤ x ∧ x < e.1.1 + e.1.2 then some e else rmFindSeg rest x

/-- Modelled from the spec: the pieces of a single `RangeMap` entry left after
clearing the span `[off, off+len)` out of it — the entry is truncated or split
around the cleared span (spec section 4.1 (a)/(b)). -/
def rmClearEntry {T : Type} (off len : Nat) (e : (Nat × Nat) × T) :
    List ((Nat × Nat) × T) :=
  let o := e.1.1
  let l := e.1.2
  let leftLen := min l (off - o)
  let rightStart := max o (off + len)
  let rightLen := o + l - rightStart
  (if 0 < leftLen then [((o, leftLen), e.2)] else []) ++
    (if 0 < rightLen then [((rightStart, rightLen), e.2)] else [])

/-- Modelled from the spec: ordered insertion of an entry into a `RangeMap`
(entries sorted by offset, spec section 3). -/
def rmInsertSorted {T : Type} (e : (Nat × Nat) × T) : RangeMap T → RangeMap T
  | [] => [e]
  | f :: rest =>
    if e.1.1 ≤ f.1.1 then e :: f :: rest else f :: rmInsertSorted e rest

/-- Modelled from the spec: merging of adjacent entries holding equal values
(spec section 4.1 (d)). -/
def rmMergeAdj {T : Type} [DecidableEq T] : RangeMap T → RangeMap T
  | [] => []
  | e :: rest =>
    match rmMergeAdj rest with
    | [] => [e]
    | f :: rest' =>
      if e.1.1 + e.1.2 = f.1.1 ∧ e.2 = f.2 then
        ((e.1.1, e.1.2 + f.1.2), e.2) :: rest'
      else
        e :: f :: rest'

/-- Modelled from the spec: `set_range(offset, length, value)` on a `RangeMap`
(spec section 4.1): truncate/split boundary entries that overlap the new
range, remove entries fully covered, insert the new entry, and merge adjacent
entries of equal value.  A request with `length == 0` is a no-op. -/
def rmSetRange {T : Type} [DecidableEq T] (m : RangeMap T) (off len : Nat) (v : T) : RangeMap T :=
  if len = 0 then m
  else rmMergeAdj (rmInsertSorted ((off, len), v) (m.flatMap (rmClearEntry off len)))

/-- Modelled from the spec: shifting of `RangeMap` entries for a data
insertion of `len` bytes at `off` — every entry whose offset is at or after
the edit point moves up by `len` (spec section 4.5). -/
def rmShiftInsert {T : Type} (m : RangeMap T) (off len : Nat) : RangeMap T :=
  m.map (fun e => if off ≤ e.1.1 then ((e.1.1 + len, e.1.2), e.2) else e)

/-- Modelled from the spec: shifting of `RangeMap` entries for a data erase of
`[off, off+len)` — entries past the erased span move down by `len`, entries
the erase cuts through are truncated, entries fully inside it are removed
(spec section 4.5). -/
def rmShiftErase {T : Type} (m : RangeMap T) (off len : Nat) : RangeMap T :=
  m.filterMap (fun e =>
    let o := e.1.1
    let l := e.1.2
    let overlap := min (o + l) (off + len) - max o off
    let newLen := l - overlap
    let newOff := if off + len ≤ o then o - len else if off ≤ o then off else o
    if 0 < l ∧ newLen = 0 then none else some ((newOff, newLen), e.2))

/-- Modelled from the spec: clearing the span `[off, off+len)` out of a
`RangeMap` of base offsets (the underlying maps of `VirtualAddressMap`, whose
value is the opposite-space base of the segment): a piece kept to the right of
the cleared span keeps translating the same addresses, so its base advances by
the amount cut off the entry's front (spec section 4.3). -/
def rmClearBase (m : RangeMap Nat) (off len : Nat) : RangeMap Nat :=
  m.flatMap (fun e =>
    let o := e.1.1
    let l := e.1.2
    let leftLen := min l (off - o)
    let rightStart := max o (off + len)
    let rightLen := o + l - rightStart
    (if 0 < leftLen then [((o, leftLen), e.2)] else []) ++
      (if 0 < rightLen then [((rightStart, rightLen), e.2 + (rightStart - o))] else []))

/-- Modelled from the spec: removing from a base-offset `RangeMap` the
portions of each segment whose translated (value-side) address falls in
`[off, off+len)` (spec section 4.3: clearing one direction of the virtual
mapping must not leave a dangling segment in the other). -/
def rmClearByValueRange (m : RangeMap Nat) (off len : Nat) : RangeMap Nat :=
  m.flatMap (fun e =>
    let o := e.1.1
    let l := e.1.2
    let vb := e.2
    let leftLen := min l (off - vb)
    let rightStartV := max vb (off + len)
    let rightLen := vb + l - rightStartV
    let s := rightStartV - vb
    (if 0 < leftLen then [((o, leftLen), vb)] else []) ++
      (if 0 < rightLen then [((o + s, rightLen), vb + s)] else []))

/-- Modelled from the spec: shifting the value-side (base offsets) of a
base-offset `RangeMap` for a data insertion in the value space
(spec sections 4.3 and 4.5). -/
def rmShiftInsertVals (m : RangeMap Nat) (off len : Nat) : RangeMap Nat :=
  m.map (fun e => if off ≤ e.2 then (e.1, e.2 + len) else e)

/-- Modelled from the spec: shifting of a base-offset `RangeMap` for a data
erase in the key space — the surviving piece keeps its translation, so a
front-truncated entry's base advances by the amount cut off (spec section
4.3: "erase narrows or deletes overlapping virtual segments"). -/
def rmShiftEraseBase (m : RangeMap Nat) (off len : Nat) : RangeMap Nat :=
  m.filterMap (fun e =>
    let o := e.1.1
    let l := e.1.2
    let overlap := min (o + l) (off + len) - max o off
    let newLen := l - overlap
    let newOff := if off + len ≤ o then o - len else if off ≤ o then off else o
    let newVb := if off ≤ o then e.2 + (min (o + l) (off + len) - o) else e.2
    if 0 < l ∧ newLen = 0 then none else some ((newOff, newLen), newVb))

/-- Modelled from the spec: shifting of a base-offset `RangeMap` for a data
erase in the value space — portions translating into the erased span are
removed and bases past it shift down (spec section 4.3). -/
def rmShiftEraseVals (m : RangeMap Nat) (off len : Nat) : RangeMap Nat :=
  (rmClearByValueRange m off len).map
    (fun e => if off + len ≤ e.2 then (e.1, e.2 - len) else e)

/-- Modelled from the spec: `NestedRangeMap<T>`
(`NestedOffsetLengthMap` in the header), an ordered collection of
`((offset, length), value)` entries in which one range may contain another
but partial overlap is rejected (spec sections 3 and 4.2). -/
abbrev NestedMap (T : Type) := List ((Nat × Nat) × T)

/-- Modelled from the spec: the relation every pair of ranges in a
`NestedRangeMap` must satisfy — equal, disjoint, or one containing the other
(spec section 3); any other overlap ("straddling") is rejected by `set`. -/
def nestableB (o1 l1 o2 l2 : Nat) : Bool :=
  (o1 + l1 ≤ o2 : Bool) || (o2 + l2 ≤ o1 : Bool) ||
    ((o2 ≤ o1 : Bool) && (o1 + l1 ≤ o2 + l2 : Bool)) ||
    ((o1 ≤ o2 : Bool) && (o2 + l2 ≤ o1 + l1 : Bool))

/-- Modelled from the spec: ordered insertion into a `NestedRangeMap` —
primarily by offset ascending, ties broken by descending length so that a
containing range sorts immediately before its contents (spec section 3). -/
def nmInsert {T : Type} (e : (Nat × Nat) × T) : NestedMap T → NestedMap T
  | [] => [e]
  | f :: rest =>
    if e.1.1 < f.1.1 ∨ (e.1.1 = f.1.1 ∧ f.1.2 ≤ e.1.2) then e :: f :: rest
    else f :: nmInsert e rest

/-- Modelled from the spec: `set(offset, length, value)` on a
`NestedRangeMap` (spec section 4.2): fails (returning `none` and leaving the
map unchanged) when the new range straddles an existing one; otherwise
replaces any entry with the exact same range and inserts the new entry. -/
def nmSet {T : Type} (m : NestedMap T) (off len : Nat) (v : T) : Option (NestedMap T) :=
  if m.all (fun e => nestableB off len e.1.1 e.1.2) then
    some (nmInsert ((off, len), v) (m.filter (fun e => !(e.1.1 == off && e.1.2 == len))))
  else
    none

/-- Modelled from the spec: `erase(offset, length)` on a `NestedRangeMap`
(spec section 4.2): requires an exact `(offset, length)` match and fails with
`none` ("not found") otherwise. -/
def nmErase {T : Type} (m : NestedMap T) (off len : Nat) : Option (NestedMap T) :=
  if m.any (fun e => e.1.1 == off && e.1.2 == len) then
    some (m.filter (fun e => !(e.1.1 == off && e.1.2 == len)))
  else
    none

/-- Modelled from the spec: shifting of `NestedRangeMap` entries for a data
insertion (spec section 4.5: "shift every stored range ... whose offset is at
or after the edit point by the insertion length"). -/
def nmShiftInsert {T : Type} (m : NestedMap T) (off len : Nat) : NestedMap T :=
  m.map (fun e => if off ≤ e.1.1 then ((e.1.1 + len, e.1.2), e.2) else e)

/-- Modelled from the spec: shifting of `NestedRangeMap` entries for a data
erase (spec section 4.5): entries past the erased span shift down, entries the
erase cuts through are truncated, non-empty entries fully inside it are
removed.  A zero-length entry is a point annotation and survives, moved to the
start of the erased span if it fell inside it. -/
def nmShiftErase {T : Type} (m : NestedMap T) (off len : Nat) : NestedMap T :=
  m.filterMap (fun e =>
    let o := e.1.1
    let l := e.1.2
    let overlap := min (o + l) (off + len) - max o off
    let newLen := l - overlap
    let newOff := if off + len ≤ o then o - len else if off ≤ o then off else o
    if 0 < l ∧ newLen = 0 then none else some ((newOff, newLen), e.2))

/-! ### The Buffer collaborator

Spec section 6: the byte-storage engine offers read/overwrite/insert/erase on
a linear byte sequence, addressed by absolute "real" offsets.  It is embedded
as pure functions on `List Nat`. -/

/-- Modelled from the spec: `Buffer::read(offset, max_length)`. -/
def readBuf (b : List Nat) (off len : Nat) : List Nat :=
  (b.drop off).take len

/-- Modelled from the spec: replacement of the `oldLen` bytes at `off` with
`data` — `Buffer::overwrite` when `oldLen = data.length`, and the combined
erase-and-insert used by `replace_data` otherwise. -/
def spliceBuf (b : List Nat) (off oldLen : Nat) (data : List Nat) : List Nat :=
  b.take off ++ data ++ b.drop (off + oldLen)

/-- Modelled from the spec: `Buffer::insert(offset, bytes)`. -/
def insertBuf (b : List Nat) (off : Nat) (data : List Nat) : List Nat :=
  b.take off ++ data ++ b.drop off

/-- Modelled from the spec: `Buffer::erase(offset, length)`. -/
def eraseBuf (b : List Nat) (off len : Nat) : List Nat :=
  b.take off ++ b.drop (off + len)

/-! ### Cursor state and reverse-operation closures -/

/-- The `Document::CursorState` enumeration (src/document.hpp lines 93-108). -/
inductive CursorState
  | cstate_hex
  | cstate_hex_mid
  | cstate_ascii
  | cstate_special
  | cstate_goto
  | cstate_current
  deriving DecidableEq, Repr

/-- Cursor-position update applied atomically with a primitive edit: a
negative `new_cursor_pos` means "do not change the cursor position"
(src/document.hpp line 462). -/
def applyCpos (cur : Nat) (new_cursor_pos : Int) : Nat :=
  if new_cursor_pos < 0 then cur else new_cursor_pos.toNat

/-- Cursor-state update: `CSTATE_CURRENT` keeps the current state, and
`CSTATE_GOTO` goes to `CSTATE_HEX` if in `CSTATE_HEX_MID`, else keeps the
current state (src/document.hpp lines 93-108). -/
def applyCstate (cur new_state : CursorState) : CursorState :=
  match new_state with
  | .cstate_current => cur
  | .cstate_goto => if cur = .cstate_hex_mid then .cstate_hex else cur
  | s => s

/-- Modelled from the spec: the reverse-closure `Document::TransOpFunc`
(src/document.hpp lines 294-303; spec sections 3 and 9).  Following the
spec's design note, the closure is represented as a tagged variant of the
buffer action it performs; metadata-only edits contribute `noop` because the
metadata side of undo is restored from the transaction's snapshots. -/
inductive TransOp
  | noop
  | insertBytes (off : Nat) (data : List Nat)
  | eraseBytes (off len : Nat)
  | spliceBytes (off removeLen : Nat) (ins : List Nat)
  deriving DecidableEq, Repr

/-- Modelled from the spec: invoking a reverse-closure — perform the action
against the buffer and return the closure that would redo what was just
undone (spec section 3 "Reverse-closure", section 9 `apply_inverse`). -/
def applyOp : TransOp → List Nat → List Nat × TransOp
  | .noop, b => (b, .noop)
  | .insertBytes off data, b => (insertBuf b off data, .eraseBytes off data.length)
  | .eraseBytes off len, b => (eraseBuf b off len, .insertBytes off (readBuf b off len))
  | .spliceBytes off removeLen ins, b =>
    (spliceBuf b off removeLen ins, .spliceBytes off ins.length (readBuf b off removeLen))

/-- Modelled from the spec: invoking a transaction's reverse-closures in
reverse append order (the caller passes the list already reversed), chaining
the returned forward closures into the list for the opposite stack
(spec section 4.5 `undo()`). -/
def runOps : List TransOp → List Nat → List Nat × List TransOp
  | [], b => (b, [])
  | op :: rest, b =>
    let r := applyOp op b
    let r2 := runOps rest r.1
    (r2.1, r.2 :: r2.2)

/-! ### Transactions and the Document state -/

/-- The `Document::Transaction` structure (src/document.hpp lines 305-333):
a description, the list of reverse-closures, and snapshots of the cursor and
of every metadata structure taken when the transaction was opened.  The
`complete` flag of the source is represented by where the transaction lives
(`Doc.open_trans` versus the undo/redo stacks). -/
structure Transaction where
  desc : String
  ops : List TransOp
  old_cpos_off : Nat
  old_cursor_state : CursorState
  old_comments : NestedMap String
  old_highlights : NestedMap Nat
  old_types : RangeMap String
  old_real_to_virt_segs : RangeMap Nat
  old_virt_to_real_segs : RangeMap Nat
  deriving DecidableEq, Repr

/-- `Document::UNDO_MAX` (src/document.hpp line 359): the undo stack's
capacity. -/
def UNDO_MAX : Nat := 64

/-- The `Document` state (src/document.hpp lines 337-361): the buffer (held
by the Buffer collaborator in the source), the dirty tracker
(`buffer_seq`/`data_seq`/`saved_seq`), the metadata structures, the cursor,
and the transaction machinery.  The head of `undo_stack` is the most recent
transaction; the open (incomplete) transaction, if any, is held in
`open_trans`. -/
structure Doc where
  buffer : List Nat
  buffer_seq : Nat
  data_seq : RangeMap Nat
  saved_seq : Nat
  comments : NestedMap String
  highlights : NestedMap Nat
  types : RangeMap String
  real_to_virt_segs : RangeMap Nat
  virt_to_real_segs : RangeMap Nat
  cpos_off : Nat
  cursor_state : CursorState
  open_trans : Option Transaction
  undo_stack : List Transaction
  redo_stack : List Transaction
  deriving DecidableEq, Repr

/-- Modelled from the spec: the snapshot taken by the `Transaction`
constructor (src/document.hpp lines 322-332) — cursor position/state and
value copies of comments, highlights, types and both virtual-mapping maps. -/
def Doc.snapshot (d : Doc) (desc : String) : Transaction :=
  { desc := desc
    ops := []
    old_cpos_off := d.cpos_off
    old_cursor_state := d.cursor_state
    old_comments := d.comments
    old_highlights := d.highlights
    old_types := d.types
    old_real_to_virt_segs := d.real_to_virt_segs
    old_virt_to_real_segs := d.virt_to_real_segs }

/-- The outcome of a primitive edit: success, validation rejection (the
boolean `false` of the source, no mutation), or a propagated Buffer I/O
error.  Each constructor carries the resulting document state. -/
inductive EditResult
  | ok (d : Doc)
  | rejected (d : Doc)
  | ioError (d : Doc)
  deriving DecidableEq, Repr

/-- The document state an edit left behind, whatever its outcome. -/
def EditResult.doc : EditResult → Doc
  | .ok d => d
  | .rejected d => d
  | .ioError d => d

/-- Modelled from the spec: `Document::transact_step` (src/document.hpp line
335; spec section 4.5 step 3): append the edit's reverse-closure to the open
transaction, auto-opening and immediately committing an anonymous one-shot
transaction if none is open.  `d0` is the pre-edit state (whose snapshot a
one-shot transaction records) and `mutated` the post-mutation state.  Any primitive
edit clears the redo stack (spec section 4.5). -/
def Doc.transactStep (d0 mutated : Doc) (op : TransOp) : Doc :=
  match d0.open_trans with
  | some t =>
    { mutated with open_trans := some { t with ops := t.ops ++ [op] }, redo_stack := [] }
  | none =>
    { mutated with
      open_trans := none
      undo_stack := ({ d0.snapshot "change data" with ops := [op] } :: d0.undo_stack).take UNDO_MAX
      redo_stack := [] }

/-- Modelled from the spec: the shared shape of the buffer-mutating primitive
edits (spec sections 4.5 and 7): validate first (reject with no mutation),
then perform the Buffer mutation — an I/O failure there propagates out with
no metadata or transaction bookkeeping applied — and only then commit the
mutated state and the reverse-closure. -/
def Doc.editData (d : Doc) (valid io_fail : Bool) (mutated : Doc) (op : TransOp) : EditResult :=
  if valid then
    if io_fail then .ioError d else .ok (Doc.transactStep d mutated op)
  else
    .rejected d

/-- Modelled from the spec: the shared shape of the metadata-only primitive
edits — `none` is a validation/range-invariant failure (boolean `false`, no
mutation, spec section 7 (a)/(b)); otherwise the mutation is recorded through
`transactStep` with a `noop` buffer closure. -/
def Doc.editMeta (d : Doc) (mutated : Option Doc) : EditResult :=
  match mutated with
  | some m => .ok (Doc.transactStep d m .noop)
  | none => .rejected d

/-! ### The primitive edits (spec section 4.5; declarations in
src/document.hpp lines 188-256 and 456-502) -/

/-- Modelled from the spec: `Document::overwrite_data`
(declared src/document.hpp line 466).  Overwrites `data.length` bytes at
`off`, stamps the dirty tracker over the affected extent with the
incremented `buffer_seq`, applies the cursor update, and records a
reverse-closure holding a copy of the overwritten bytes. -/
def Doc.overwrite_data (d : Doc) (off : Nat) (data : List Nat) (new_cursor_pos : Int)
    (new_cursor_state : CursorState) (io_fail : Bool) : EditResult :=
  Doc.editData d (decide (off + data.length ≤ d.buffer.length)) io_fail
    { d with
      buffer := spliceBuf d.buffer off data.length data
      buffer_seq := d.buffer_seq + 1
      data_seq := rmSetRange d.data_seq off data.length (d.buffer_seq + 1)
      cpos_off := applyCpos d.cpos_off new_cursor_pos
      cursor_state := applyCstate d.cursor_state new_cursor_state }
    (.spliceBytes off data.length (readBuf d.buffer off data.length))

/-- Modelled from the spec: `Document::insert_data`
(declared src/document.hpp line 478).  Inserts `data` at `off`, shifts every
stored comment/highlight/type range at or after the edit point up by the
inserted length, shifts the virtual mappings likewise (real-offset keys in
`real_to_virt_segs`, real-offset values in `virt_to_real_segs`), stamps the
dirty tracker over the inserted extent, and records an erasing
reverse-closure. -/
def Doc.insert_data (d : Doc) (off : Nat) (data : List Nat) (new_cursor_pos : Int)
    (new_cursor_state : CursorState) (io_fail : Bool) : EditResult :=
  Doc.editData d (decide (off ≤ d.buffer.length)) io_fail
    { d with
      buffer := insertBuf d.buffer off data
      buffer_seq := d.buffer_seq + 1
      data_seq := rmSetRange (rmShiftInsert d.data_seq off data.length) off data.length
        (d.buffer_seq + 1)
      comments := nmShiftInsert d.comments off data.length
      highlights := nmShiftInsert d.highlights off data.length
      types := rmShiftInsert d.types off data.length
      real_to_virt_segs := rmShiftInsert d.real_to_virt_segs off data.length
      virt_to_real_segs := rmShiftInsertVals d.virt_to_real_segs off data.length
      cpos_off := applyCpos d.cpos_off new_cursor_pos
      cursor_state := applyCstate d.cursor_state new_cursor_state }
    (.eraseBytes off data.length)

/-- Modelled from the spec: `Document::erase_data`
(declared src/document.hpp line 489).  Erases `[off, off+len)`, shifts every
stored range past the erased span down by `len` (truncating or removing
ranges the erase cuts through), narrows the virtual mappings, and records a
reverse-closure holding a copy of the erased bytes. -/
def Doc.erase_data (d : Doc) (off len : Nat) (new_cursor_pos : Int)
    (new_cursor_state : CursorState) (io_fail : Bool) : EditResult :=
  Doc.editData d (decide (off + len ≤ d.buffer.length)) io_fail
    { d with
      buffer := eraseBuf d.buffer off len
      buffer_seq := d.buffer_seq + 1
      data_seq := rmShiftErase d.data_seq off len
      comments := nmShiftErase d.comments off len
      highlights := nmShiftErase d.highlights off len
      types := rmShiftErase d.types off len
      real_to_virt_segs := rmShiftEraseBase d.real_to_virt_segs off len
      virt_to_real_segs := rmShiftEraseVals d.virt_to_real_segs off len
      cpos_off := applyCpos d.cpos_off new_cursor_pos
      cursor_state := applyCstate d.cursor_state new_cursor_state }
    (.insertBytes off (readBuf d.buffer off len))

/-- Modelled from the spec: `Document::replace_data`
(declared src/document.hpp line 502).  Replaces the `old_data_length` bytes
at `off` with `data`, applying the erase-then-insert range shifts to the
metadata, and records a splicing reverse-closure holding a copy of the
replaced bytes. -/
def Doc.replace_data (d : Doc) (off old_data_length : Nat) (data : List Nat)
    (new_cursor_pos : Int) (new_cursor_state : CursorState) (io_fail : Bool) : EditResult :=
  Doc.editData d (decide (off + old_data_length ≤ d.buffer.length)) io_fail
    { d with
      buffer := spliceBuf d.buffer off old_data_length data
      buffer_seq := d.buffer_seq + 1
      data_seq := rmSetRange
        (rmShiftInsert (rmShiftErase d.data_seq off old_data_length) off data.length)
        off data.length (d.buffer_seq + 1)
      comments := nmShiftInsert (nmShiftErase d.comments off old_data_length) off data.length
      highlights := nmShiftInsert (nmShiftErase d.highlights off old_data_length) off data.length
      types := rmShiftInsert (rmShiftErase d.types off old_data_length) off data.length
      real_to_virt_segs :=
        rmShiftInsert (rmShiftEraseBase d.real_to_virt_segs off old_data_length) off data.length
      virt_to_real_segs :=
        rmShiftInsertVals (rmShiftEraseVals d.virt_to_real_segs off old_data_length) off
          data.length
      cpos_off := applyCpos d.cpos_off new_cursor_pos
      cursor_state := applyCstate d.cursor_state new_cursor_state }
    (.spliceBytes off data.length (readBuf d.buffer off old_data_length))

/-- Modelled from the spec: `Document::set_comment`
(declared src/document.hpp line 188): `false` if the range is beyond the
current size of the file or straddles another comment. -/
def Doc.set_comment (d : Doc) (off len : Nat) (text : String) : EditResult :=
  Doc.editMeta d
    (if off + len ≤ d.buffer.length then
      (nmSet d.comments off len text).map (fun m => { d with comments := m })
    else none)

/-- Modelled from the spec: `Document::erase_comment`
(declared src/document.hpp line 198): `false` if no comment has exactly the
given range. -/
def Doc.erase_comment (d : Doc) (off len : Nat) : EditResult :=
  Doc.editMeta d ((nmErase d.comments off len).map (fun m => { d with comments := m }))

/-- Modelled from the spec: `Document::set_highlight`
(declared src/document.hpp line 216). -/
def Doc.set_highlight (d : Doc) (off len : Nat) (highlight_colour_idx : Nat) : EditResult :=
  Doc.editMeta d
    (if off + len ≤ d.buffer.length then
      (nmSet d.highlights off len highlight_colour_idx).map
        (fun m => { d with highlights := m })
    else none)

/-- Modelled from the spec: `Document::erase_highlight`
(declared src/document.hpp line 230). -/
def Doc.erase_highlight (d : Doc) (off len : Nat) : EditResult :=
  Doc.editMeta d ((nmErase d.highlights off len).map (fun m => { d with highlights := m }))

/-- Modelled from the spec: `Document::set_data_type`
(declared src/document.hpp line 250): `false` if the range is beyond the
current size of the file; types do not nest, so the assignment goes through
`RangeMap::set_range`. -/
def Doc.set_data_type (d : Doc) (off len : Nat) (type : String) : EditResult :=
  Doc.editMeta d
    (if off + len ≤ d.buffer.length then
      some { d with types := rmSetRange d.types off len type }
    else none)

/-- Whether any entry of the map overlaps the half-open range
`[off, off+len)`. -/
def rmOverlaps {T : Type} (m : RangeMap T) (off len : Nat) : Bool :=
  m.any (fun e => max e.1.1 off < min (e.1.1 + e.1.2) (off + len))

/-- Modelled from the spec: `Document::set_virt_mapping`
(declared src/document.hpp line 254; spec section 4.3): rejected if the new
segment would conflict with either direction of the existing mapping, else
the segment is entered into both underlying maps. -/
def Doc.set_virt_mapping (d : Doc) (real_offset virt_offset length : Nat) : EditResult :=
  Doc.editMeta d
    (if rmOverlaps d.real_to_virt_segs real_offset length ∨
        rmOverlaps d.virt_to_real_segs virt_offset length then
      none
    else
      some
        { d with
          real_to_virt_segs :=
            rmInsertSorted ((real_offset, length), virt_offset) d.real_to_virt_segs
          virt_to_real_segs :=
            rmInsertSorted ((virt_offset, length), real_offset) d.virt_to_real_segs })

/-- Modelled from the spec: `Document::clear_virt_mapping_r`
(declared src/document.hpp line 255): remove the mappings of the real range
`[real_offset, real_offset+length)` from both maps (`void` in the source, so
it always succeeds). -/
def Doc.clear_virt_mapping_r (d : Doc) (real_offset length : Nat) : EditResult :=
  Doc.editMeta d
    (some
      { d with
        real_to_virt_segs := rmClearBase d.real_to_virt_segs real_offset length
        virt_to_real_segs := rmClearByValueRange d.virt_to_real_segs real_offset length })

/-- Modelled from the spec: `Document::clear_virt_mapping_v`
(declared src/document.hpp line 256). -/
def Doc.clear_virt_mapping_v (d : Doc) (virt_offset length : Nat) : EditResult :=
  Doc.editMeta d
    (some
      { d with
        virt_to_real_segs := rmClearBase d.virt_to_real_segs virt_offset length
        real_to_virt_segs := rmClearByValueRange d.real_to_virt_segs virt_offset length })

/-! ### Undo, redo and explicit transactions -/

/-- Modelled from the spec: `Document::undo` (declared src/document.hpp line
269; spec section 4.5): pop the most recent transaction (a no-op when the
stack is empty, spec section 7 (d)); restore its snapshotted metadata and
cursor state; invoke each reverse-closure in reverse append order, chaining
the returned forward closures into a redo transaction that snapshots the
pre-undo state; push that transaction onto the redo stack. -/
def Doc.undo (d : Doc) : Doc :=
  match d.undo_stack with
  | [] => d
  | t :: rest =>
    let r := runOps t.ops.reverse d.buffer
    { d with
      buffer := r.1
      cpos_off := t.old_cpos_off
      cursor_state := t.old_cursor_state
      comments := t.old_comments
      highlights := t.old_highlights
      types := t.old_types
      real_to_virt_segs := t.old_real_to_virt_segs
      virt_to_real_segs := t.old_virt_to_real_segs
      undo_stack := rest
      redo_stack := { d.snapshot t.desc with ops := r.2 } :: d.redo_stack }

/-- Modelled from the spec: `Document::redo` (declared src/document.hpp line
279): symmetric to `undo`, popping from the redo stack and pushing the
rebuilt transaction onto the (bounded) undo stack. -/
def Doc.redo (d : Doc) : Doc :=
  match d.redo_stack with
  | [] => d
  | t :: rest =>
    let r := runOps t.ops.reverse d.buffer
    { d with
      buffer := r.1
      cpos_off := t.old_cpos_off
      cursor_state := t.old_cursor_state
      comments := t.old_comments
      highlights := t.old_highlights
      types := t.old_types
      real_to_virt_segs := t.old_real_to_virt_segs
      virt_to_real_segs := t.old_virt_to_real_segs
      redo_stack := rest
      undo_stack := ({ d.snapshot t.desc with ops := r.2 } :: d.undo_stack).take UNDO_MAX }

/-- Modelled from the spec: `Document::transact_begin`
(declared src/document.hpp line 516; spec section 4.5): open a transaction
snapshotting the current state; a nested `begin` joins the transaction
already open. -/
def Doc.transact_begin (d : Doc) (desc : String) : Doc :=
  match d.open_trans with
  | some _ => d
  | none => { d with open_trans := some (d.snapshot desc) }

/-- Modelled from the spec: `Document::transact_commit`
(declared src/document.hpp line 517; spec section 3 "Transaction"): the
completed transaction is pushed onto the bounded undo stack (capacity
`UNDO_MAX`, oldest entry discarded on overflow) and the redo stack is
cleared.  A commit with no open transaction is a no-op. -/
def Doc.transact_commit (d : Doc) : Doc :=
  match d.open_trans with
  | some t =>
    { d with
      open_trans := none
      undo_stack := (t :: d.undo_stack).take UNDO_MAX
      redo_stack := [] }
  | none => d

/-- Modelled from the spec: `Document::transact_rollback`
(declared src/document.hpp line 518; spec section 3 "Transaction"): the open
transaction's closures are invoked in reverse immediately, its snapshots are
restored, and nothing is pushed onto either stack. -/
def Doc.transact_rollback (d : Doc) : Doc :=
  match d.open_trans with
  | some t =>
    let r := runOps t.ops.reverse d.buffer
    { d with
      buffer := r.1
      cpos_off := t.old_cpos_off
      cursor_state := t.old_cursor_state
      comments := t.old_comments
      highlights := t.old_highlights
      types := t.old_types
      real_to_virt_segs := t.old_real_to_virt_segs
      virt_to_real_segs := t.old_virt_to_real_segs
      open_trans := none }
  | none => d

/-! ### Dirty tracking and address translation -/

/-- Modelled from the spec: `mark_saved()` (spec section 4.4), the save-time
update `saved_seq = buffer_seq` performed by `Document::save`. -/
def Doc.mark_saved (d : Doc) : Doc :=
  { d with saved_seq := d.buffer_seq }

/-- Modelled from the spec: `Document::is_byte_dirty(offset)`
(declared src/document.hpp line 158; spec section 4.4): a byte is dirty iff
its `data_seq` entry (or the current `buffer_seq` if it has none) exceeds
`saved_seq`. -/
def Doc.is_byte_dirty (d : Doc) (offset : Nat) : Bool :=
  d.saved_seq < (rmValAt d.data_seq offset).getD d.buffer_seq

/-- Modelled from the spec: `Document::real_to_virt_offset`
(declared src/document.hpp line 261; spec sections 3 and 4.3): inside a
mapped segment translate through the segment's base; outside any mapped
segment the translation is the identity. -/
def Doc.real_to_virt_offset (d : Doc) (real_offset : Nat) : Nat :=
  match rmFindSeg d.real_to_virt_segs real_offset with
  | some e => e.2 + (real_offset - e.1.1)
  | none => real_offset

/-- Modelled from the spec: `Document::virt_to_real_offset`
(declared src/document.hpp line 262). -/
def Doc.virt_to_real_offset (d : Doc) (virt_offset : Nat) : Nat :=
  match rmFindSeg d.virt_to_real_segs virt_offset with
  | some e => e.2 + (virt_offset - e.1.1)
  | none => virt_offset

/-! ### Sequences of primitive edits -/

/-- One primitive edit of spec section 4.5, with its arguments. -/
inductive Edit
  | overwrite (off : Nat) (data : List Nat) (ncpos : Int) (ncs : CursorState)
  | insert (off : Nat) (data : List Nat) (ncpos : Int) (ncs : CursorState)
  | erase (off len : Nat) (ncpos : Int) (ncs : CursorState)
  | replace (off oldLen : Nat) (data : List Nat) (ncpos : Int) (ncs : CursorState)
  | setComment (off len : Nat) (text : String)
  | eraseComment (off len : Nat)
  | setHighlight (off len : Nat) (colour : Nat)
  | eraseHighlight (off len : Nat)
  | setDataType (off len : Nat) (ty : String)
  | setVirtMapping (real virt len : Nat)
  | clearVirtMappingR (real len : Nat)
  | clearVirtMappingV (virt len : Nat)
  deriving DecidableEq, Repr

/-- Dispatch of an `Edit` to the corresponding primitive-edit operation
(with no injected Buffer I/O failure). -/
def Doc.applyEdit (d : Doc) : Edit → EditResult
  | .overwrite off data p s => d.overwrite_data off data p s false
  | .insert off data p s => d.insert_data off data p s false
  | .erase off len p s => d.erase_data off len p s false
  | .replace off oldLen data p s => d.replace_data off oldLen data p s false
  | .setComment off len text => d.set_comment off len text
  | .eraseComment off len => d.erase_comment off len
  | .setHighlight off len colour => d.set_highlight off len colour
  | .eraseHighlight off len => d.erase_highlight off len
  | .setDataType off len ty => d.set_data_type off len ty
  | .setVirtMapping real virt len => d.set_virt_mapping real virt len
  | .clearVirtMappingR real len => d.clear_virt_mapping_r real len
  | .clearVirtMappingV virt len => d.clear_virt_mapping_v virt len

/-- Whether every edit of the sequence succeeds (is actually applied) when
run in order from `d`. -/
def Doc.editsOk (d : Doc) : List Edit → Bool
  | [] => true
  | e :: es =>
    match d.applyEdit e with
    | .ok d1 => d1.editsOk es
    | _ => false

/-- The document state after running a sequence of primitive edits. -/
def Doc.applyEdits (d : Doc) (es : List Edit) : Doc :=
  es.foldl (fun x e => (x.applyEdit e).doc) d

/-- `n` successive `undo()` calls. -/
def Doc.undoN : Doc → Nat → Doc
  | d, 0 => d
  | d, n + 1 => d.undo.undoN n

/-- Any operation of the Document façade that can touch the transaction
stacks (spec section 6). -/
inductive Action
  | edit (e : Edit)
  | undoAct
  | redoAct
  | beginAct (desc : String)
  | commitAct
  | rollbackAct
  deriving DecidableEq, Repr

/-- One step of the Document façade. -/
def Doc.stepAction (d : Doc) : Action → Doc
  | .edit e => (d.applyEdit e).doc
  | .undoAct => d.undo
  | .redoAct => d.redo
  | .beginAct desc => d.transact_begin desc
  | .commitAct => d.transact_commit
  | .rollbackAct => d.transact_rollback

/-- A freshly opened, clean document over the given bytes: no metadata, no
undo history, every byte stamped with the saved generation. -/
def newDoc (bytes : List Nat) : Doc :=
  { buffer := bytes
    buffer_seq := 0
    data_seq := [((0, bytes.length), 0)]
    saved_seq := 0
    comments := []
    highlights := []
    types := []
    real_to_virt_segs := []
    virt_to_real_segs := []
    cpos_off := 0
    cursor_state := .cstate_hex
    open_trans := none
    undo_stack := []
    redo_stack := [] }

/-! ## Helper lemmas -/

theorem take_mid_drop (b : List Nat) (off n : Nat) :
    (b.take off ++ (b.drop off).take n) ++ b.drop (off + n) = b := by
  rw [List.append_assoc]
  conv_rhs => rw [← List.take_append_drop off b]
  congr 1
  conv_rhs => rw [← List.take_append_drop n (b.drop off)]
  congr 1
  rw [List.drop_drop]

theorem length_take_of_le {b : List Nat} {off : Nat} (h : off ≤ b.length) :
    (b.take off).length = off := by
  rw [List.length_take]
  omega

/-- Undoing a splice (overwrite or replace) with the saved old bytes restores
the original buffer. -/
theorem spliceBuf_round (b : List Nat) (off n : Nat) (data : List Nat)
    (h : off + n ≤ b.length) :
    spliceBuf (spliceBuf b off n data) off data.length (readBuf b off n) = b := by
  have h1 : (b.take off).length = off := length_take_of_le (by omega)
  have h2 : (b.take off ++ data).length = off + data.length := by
    rw [List.length_append, h1]
  unfold spliceBuf readBuf
  rw [List.append_assoc (b.take off) data, List.take_left' h1,
    ← List.append_assoc (b.take off) data, List.drop_left' h2]
  exact take_mid_drop b off n

/-- Undoing an insertion by erasing the inserted span restores the original
buffer. -/
theorem insertBuf_round (b : List Nat) (off : Nat) (data : List Nat)
    (h : off ≤ b.length) :
    eraseBuf (insertBuf b off data) off data.length = b := by
  have h1 : (b.take off).length = off := length_take_of_le h
  have h2 : (b.take off ++ data).length = off + data.length := by
    rw [List.length_append, h1]
  unfold eraseBuf insertBuf
  rw [List.append_assoc (b.take off) data, List.take_left' h1,
    ← List.append_assoc (b.take off) data, List.drop_left' h2,
    List.take_append_drop]

/-- Undoing an erase by re-inserting the saved bytes restores the original
buffer. -/
theorem eraseBuf_round (b : List Nat) (off n : Nat) (h : off + n ≤ b.length) :
    insertBuf (eraseBuf b off n) off (readBuf b off n) = b := by
  have h1 : (b.take off).length = off := length_take_of_le (by omega)
  unfold insertBuf eraseBuf readBuf
  rw [List.take_left' h1, List.drop_left' h1]
  exact take_mid_drop b off n

/-- Equality of the state components named by the round-trip property:
buffer contents, comment/highlight/type maps, virtual mapping, and cursor
position/state. -/
def CoreEq (x y : Doc) : Prop :=
  x.buffer = y.buffer ∧ x.comments = y.comments ∧ x.highlights = y.highlights ∧
    x.types = y.types ∧ x.real_to_virt_segs = y.real_to_virt_segs ∧
    x.virt_to_real_segs = y.virt_to_real_segs ∧ x.cpos_off = y.cpos_off ∧
    x.cursor_state = y.cursor_state

instance (x y : Doc) : Decidable (CoreEq x y) := by
  unfold CoreEq
  infer_instance

theorem CoreEq.refl (x : Doc) : CoreEq x x :=
  ⟨rfl, rfl, rfl, rfl, rfl, rfl, rfl, rfl⟩

theorem transactStep_none (d mutated : Doc) (op : TransOp) (h : d.open_trans = none) :
    Doc.transactStep d mutated op =
      { mutated with
        open_trans := none
        undo_stack :=
          ({ d.snapshot "change data" with ops := [op] } :: d.undo_stack).take UNDO_MAX
        redo_stack := [] } := by
  unfold Doc.transactStep
  rw [h]

theorem editData_ok {d mutated d1 : Doc} {valid io_fail : Bool} {op : TransOp}
    (h : Doc.editData d valid io_fail mutated op = .ok d1) :
    valid = true ∧ io_fail = false ∧ d1 = Doc.transactStep d mutated op := by
  unfold Doc.editData at h
  by_cases hv : valid = true
  · rw [if_pos hv] at h
    by_cases hf : io_fail = true
    · rw [if_pos hf] at h
      exact absurd h (by simp)
    · rw [if_neg hf] at h
      cases h
      exact ⟨hv, by simpa using hf, rfl⟩
  · rw [if_neg hv] at h
    exact absurd h (by simp)

theorem editMeta_ok {d d1 : Doc} {mutated : Option Doc}
    (h : Doc.editMeta d mutated = .ok d1) :
    ∃ m, mutated = some m ∧ d1 = Doc.transactStep d m .noop := by
  unfold Doc.editMeta at h
  cases hm : mutated with
  | none =>
    rw [hm] at h
    exact absurd h (by simp)
  | some m =>
    rw [hm] at h
    cases h
    exact ⟨m, rfl, rfl⟩

theorem applyEdit_meta_case {d d1 : Doc} {mutated : Option Doc}
    (hopen : d.open_trans = none)
    (h : Doc.editMeta d mutated = .ok d1)
    (hb : ∀ m, mutated = some m → m.buffer = d.buffer) :
    ∃ op,
      d1.open_trans = none ∧
      d1.undo_stack =
        ({ d.snapshot "change data" with ops := [op] } :: d.undo_stack).take UNDO_MAX ∧
      (applyOp op d1.buffer).1 = d.buffer := by
  obtain ⟨m, hm, hd1⟩ := editMeta_ok h
  subst hd1
  rw [transactStep_none _ _ _ hopen]
  exact ⟨.noop, rfl, rfl, by simpa [applyOp] using hb m hm⟩

/-- A successful primitive edit issued with no transaction open commits a
one-shot transaction: the resulting state has no transaction open, its undo
stack is the pre-edit stack with the one-shot transaction (snapshotting the
pre-edit state, carrying one reverse-closure) pushed and truncated to
`UNDO_MAX`, and invoking that closure on the post-edit buffer restores the
pre-edit buffer. -/
theorem applyEdit_ok (d : Doc) (e : Edit) (d1 : Doc) (hopen : d.open_trans = none)
    (h : d.applyEdit e = .ok d1) :
    ∃ op,
      d1.open_trans = none ∧
      d1.undo_stack =
        ({ d.snapshot "change data" with ops := [op] } :: d.undo_stack).take UNDO_MAX ∧
      (applyOp op d1.buffer).1 = d.buffer := by
  cases e with
  | overwrite off data p s =>
    simp only [Doc.applyEdit, Doc.overwrite_data] at h
    obtain ⟨hv, -, hd1⟩ := editData_ok h
    have hvv := of_decide_eq_true hv
    subst hd1
    rw [transactStep_none _ _ _ hopen]
    exact ⟨_, rfl, rfl, spliceBuf_round d.buffer off data.length data hvv⟩
  | insert off data p s =>
    simp only [Doc.applyEdit, Doc.insert_data] at h
    obtain ⟨hv, -, hd1⟩ := editData_ok h
    have hvv := of_decide_eq_true hv
    subst hd1
    rw [transactStep_none _ _ _ hopen]
    exact ⟨_, rfl, rfl, insertBuf_round d.buffer off data hvv⟩
  | erase off len p s =>
    simp only [Doc.applyEdit, Doc.erase_data] at h
    obtain ⟨hv, -, hd1⟩ := editData_ok h
    have hvv := of_decide_eq_true hv
    subst hd1
    rw [transactStep_none _ _ _ hopen]
    exact ⟨_, rfl, rfl, eraseBuf_round d.buffer off len hvv⟩
  | replace off oldLen data p s =>
    simp only [Doc.applyEdit, Doc.replace_data] at h
    obtain ⟨hv, -, hd1⟩ := editData_ok h
    have hvv := of_decide_eq_true hv
    subst hd1
    rw [transactStep_none _ _ _ hopen]
    exact ⟨_, rfl, rfl, spliceBuf_round d.buffer off oldLen data hvv⟩
  | setComment off len text =>
    simp only [Doc.applyEdit, Doc.set_comment] at h
    refine applyEdit_meta_case hopen h ?_
    intro m hm
    split at hm
    · cases hn : nmSet d.comments off len text with
      | none => rw [hn] at hm; simp at hm
      | some mm => rw [hn] at hm; simp at hm; rw [← hm]
    · simp at hm
  | eraseComment off len =>
    simp only [Doc.applyEdit, Doc.erase_comment] at h
    refine applyEdit_meta_case hopen h ?_
    intro m hm
    cases hn : nmErase d.comments off len with
    | none => rw [hn] at hm; simp at hm
    | some mm => rw [hn] at hm; simp at hm; rw [← hm]
  | setHighlight off len colour =>
    simp only [Doc.applyEdit, Doc.set_highlight] at h
    refine applyEdit_meta_case hopen h ?_
    intro m hm
    split at hm
    · cases hn : nmSet d.highlights off len colour with
      | none => rw [hn] at hm; simp at hm
      | some mm => rw [hn] at hm; simp at hm; rw [← hm]
    · simp at hm
  | eraseHighlight off len =>
    simp only [Doc.applyEdit, Doc.erase_highlight] at h
    refine applyEdit_meta_case hopen h ?_
    intro m hm
    cases hn : nmErase d.highlights off len with
    | none => rw [hn] at hm; simp at hm
    | some mm => rw [hn] at hm; simp at hm; rw [← hm]
  | setDataType off len ty =>
    simp only [Doc.applyEdit, Doc.set_data_type] at h
    refine applyEdit_meta_case hopen h ?_
    intro m hm
    split at hm
    · simp at hm; rw [← hm]
    · simp at hm
  | setVirtMapping real virt len =>
    simp only [Doc.applyEdit, Doc.set_virt_mapping] at h
    refine applyEdit_meta_case hopen h ?_
    intro m hm
    split at hm
    · simp at hm
    · simp at hm; rw [← hm]
  | clearVirtMappingR real len =>
    simp only [Doc.applyEdit, Doc.clear_virt_mapping_r] at h
    refine applyEdit_meta_case hopen h ?_
    intro m hm
    simp at hm
    rw [← hm]
  | clearVirtMappingV virt len =>
    simp only [Doc.applyEdit, Doc.clear_virt_mapping_v] at h
    refine applyEdit_meta_case hopen h ?_
    intro m hm
    simp at hm
    rw [← hm]

/-- Unfolding of `Doc.undo` on a known non-empty undo stack. -/
theorem undo_spec (m : Doc) (t : Transaction) (tail : List Transaction)
    (h : m.undo_stack = t :: tail) :
    m.undo =
      { m with
        buffer := (runOps t.ops.reverse m.buffer).1
        cpos_off := t.old_cpos_off
        cursor_state := t.old_cursor_state
        comments := t.old_comments
        highlights := t.old_highlights
        types := t.old_types
        real_to_virt_segs := t.old_real_to_virt_segs
        virt_to_real_segs := t.old_virt_to_real_segs
        undo_stack := tail
        redo_stack :=
          { m.snapshot t.desc with ops := (runOps t.ops.reverse m.buffer).2 } ::
            m.redo_stack } := by
  unfold Doc.undo
  rw [h]

theorem undoN_succ (d : Doc) (n : Nat) :
    Doc.undoN d (n + 1) = (Doc.undoN d n).undo := by
  induction n generalizing d with
  | zero => rfl
  | succ k ih => exact ih d.undo

/-- The round-trip induction: a sequence of at most `UNDO_MAX` successful
primitive edits followed by as many `undo()` calls restores the buffer, all
metadata maps and the cursor, and leaves the undo stack a truncation of the
original one. -/
theorem roundTripAux (es : List Edit) :
    ∀ d : Doc, d.open_trans = none → d.editsOk es = true → es.length ≤ UNDO_MAX →
      CoreEq ((d.applyEdits es).undoN es.length) d ∧
        ((d.applyEdits es).undoN es.length).undo_stack =
          (if es.length = 0 then d.undo_stack
           else d.undo_stack.take (UNDO_MAX - 1 - (es.length - 1))) := by
  induction es with
  | nil =>
    intro d h1 h2 h3
    exact ⟨CoreEq.refl d, by simp [Doc.applyEdits, Doc.undoN]⟩
  | cons e rest ih =>
    intro d hopen hok hlen
    cases hae : d.applyEdit e with
    | rejected dx =>
      simp only [Doc.editsOk, hae] at hok
      exact absurd hok (by simp)
    | ioError dx =>
      simp only [Doc.editsOk, hae] at hok
      exact absurd hok (by simp)
    | ok d1 =>
      simp only [Doc.editsOk, hae] at hok
      obtain ⟨op, hopen1, hstack1, hbuf1⟩ := applyEdit_ok d e d1 hopen hae
      have happ : d.applyEdits (e :: rest) = d1.applyEdits rest := by
        simp [Doc.applyEdits, List.foldl_cons, hae, EditResult.doc]
      have hlen1 : rest.length ≤ UNDO_MAX := by
        simp only [List.length_cons] at hlen
        omega
      obtain ⟨hcore, hstack⟩ := ih d1 hopen1 hok hlen1
      set m := (d1.applyEdits rest).undoN rest.length with hm
      set t : Transaction := { d.snapshot "change data" with ops := [op] } with ht
      have hms : m.undo_stack = t :: d.undo_stack.take (UNDO_MAX - 1 - rest.length) := by
        rw [hstack, hstack1]
        by_cases h0 : rest.length = 0
        · rw [if_pos h0, h0]
          show (t :: d.undo_stack).take UNDO_MAX =
            t :: d.undo_stack.take (UNDO_MAX - 1 - 0)
          rw [show (UNDO_MAX : Nat) = (UNDO_MAX - 1 - 0) + 1 from rfl,
            List.take_succ_cons]
          norm_num
        · rw [if_neg h0]
          rw [List.take_take]
          have hmin : min (UNDO_MAX - 1 - (rest.length - 1)) UNDO_MAX =
              (UNDO_MAX - 1 - rest.length) + 1 := by
            simp only [List.length_cons] at hlen
            omega
          rw [hmin, List.take_succ_cons]
      have hundo := undo_spec m t _ hms
      have hops : (runOps t.ops.reverse m.buffer).1 = d.buffer := by
        have hb : m.buffer = d1.buffer := hcore.1
        rw [ht]
        show (runOps [op].reverse m.buffer).1 = d.buffer
        simp only [List.reverse_cons, List.reverse_nil, List.nil_append, runOps, hb]
        exact hbuf1
      constructor
      · show CoreEq ((d.applyEdits (e :: rest)).undoN (e :: rest).length) d
        rw [happ, List.length_cons, undoN_succ, ← hm, hundo]
        exact ⟨hops, rfl, rfl, rfl, rfl, rfl, rfl, rfl⟩
      · rw [happ, List.length_cons, undoN_succ, ← hm, hundo]
        simp only [List.length_cons]
        rw [if_neg (by omega)]
        simp

/-! ## Claim theorems -/

/-- C1 (amended): for every sequence of AT MOST `UNDO_MAX = 64` primitive
edits, each of which succeeds, applied outside an explicit transaction, an
equal number of `undo()` calls restores the buffer contents, the
comment/highlight/type maps, the virtual address mapping, and the cursor
position/state to their pre-edit values.  (The bound is forced by the undo
stack's capacity: a 65th edit discards the oldest transaction, see the
counterexample.) -/
theorem round_trip_spec (d : Doc) (es : List Edit)
    (hopen : d.open_trans = none) (hok : d.editsOk es = true)
    (hlen : es.length ≤ UNDO_MAX) :
    CoreEq ((d.applyEdits es).undoN es.length) d :=
  (roundTripAux es d hopen hok hlen).1

/-- The 65-edit sequence witnessing that C1's round trip fails beyond the
undo stack capacity. -/
def overfullEdits : List Edit :=
  (List.range 65).map (fun i => Edit.overwrite 0 [i + 10] (-1) .cstate_current)

/-- Counterexample for C1 as frozen (no bound on the number of edits): 65
successful `overwrite_data` edits applied to a fresh document, followed by 65
`undo()` calls, do NOT restore the pre-edit state — the undo stack holds at
most 64 transactions, so the first edit's transaction was discarded and the
buffer still holds the first overwrite's bytes. -/
theorem round_trip_cex :
    (newDoc [1, 2]).open_trans = none ∧
    (newDoc [1, 2]).editsOk overfullEdits = true ∧
    ¬ CoreEq (((newDoc [1, 2]).applyEdits overfullEdits).undoN overfullEdits.length)
      (newDoc [1, 2]) := by
  set_option maxRecDepth 10000 in decide

/-- Witness for C1's amended theorem: four mixed edits (overwrite, comment,
insert, erase) on a concrete document, undone by four `undo()` calls. -/
theorem round_trip_spec_witness :
    CoreEq
      (((newDoc [1, 2, 3, 4, 5, 6, 7, 8]).applyEdits
          [.overwrite 0 [9] (-1) .cstate_current, .setComment 0 2 "hi",
           .insert 2 [7, 7] 3 .cstate_ascii, .erase 1 2 (-1) .cstate_current]).undoN
        ([.overwrite 0 [9] (-1) .cstate_current, .setComment 0 2 "hi",
           .insert 2 [7, 7] 3 .cstate_ascii,
           .erase 1 2 (-1) .cstate_current] : List Edit).length)
      (newDoc [1, 2, 3, 4, 5, 6, 7, 8]) :=
  round_trip_spec (newDoc [1, 2, 3, 4, 5, 6, 7, 8]) _ rfl
    (by set_option maxRecDepth 10000 in decide) (by decide)

theorem editData_ioError {d mutated : Doc} {op : TransOp} {valid : Bool}
    (h : valid = true) :
    Doc.editData d valid true mutated op = .ioError d := by
  unfold Doc.editData
  rw [h]
  simp

/-- C2: for every buffer-mutating primitive edit whose arguments pass
validation, a Buffer I/O failure propagates out as the error outcome and the
resulting state is the untouched pre-edit document: no metadata structure, no
dirty tracking and no transaction bookkeeping is applied.  (The metadata-only
primitives never invoke the Buffer, so the property is vacuous for them.) -/
theorem io_failure_atomic (d : Doc) (off oldLen len : Nat) (data : List Nat)
    (ncpos : Int) (ncs : CursorState) :
    (off + data.length ≤ d.buffer.length →
      d.overwrite_data off data ncpos ncs true = .ioError d) ∧
    (off ≤ d.buffer.length → d.insert_data off data ncpos ncs true = .ioError d) ∧
    (off + len ≤ d.buffer.length → d.erase_data off len ncpos ncs true = .ioError d) ∧
    (off + oldLen ≤ d.buffer.length →
      d.replace_data off oldLen data ncpos ncs true = .ioError d) :=
  ⟨fun h => editData_ioError (decide_eq_true h),
   fun h => editData_ioError (decide_eq_true h),
   fun h => editData_ioError (decide_eq_true h),
   fun h => editData_ioError (decide_eq_true h)⟩

/-- Witness for C2: an in-bounds overwrite and an in-bounds erase on a
concrete document, with the Buffer reporting failure. -/
theorem io_failure_atomic_witness :
    (newDoc [1, 2, 3]).overwrite_data 0 [5] (-1) .cstate_current true =
      .ioError (newDoc [1, 2, 3]) ∧
    (newDoc [1, 2, 3]).erase_data 1 2 (-1) .cstate_current true =
      .ioError (newDoc [1, 2, 3]) :=
  ⟨(io_failure_atomic (newDoc [1, 2, 3]) 0 0 0 [5] (-1) .cstate_current).1 (by decide),
   (io_failure_atomic (newDoc [1, 2, 3]) 1 0 2 [] (-1) .cstate_current).2.2.1 (by decide)⟩

theorem transactStep_stack_le {d0 mutated : Doc} {op : TransOp}
    (hm : mutated.undo_stack = d0.undo_stack) (h : d0.undo_stack.length ≤ UNDO_MAX) :
    (Doc.transactStep d0 mutated op).undo_stack.length ≤ UNDO_MAX := by
  unfold Doc.transactStep
  cases d0.open_trans with
  | some t => simpa [hm] using h
  | none =>
    simp only [List.length_take]
    omega

theorem editData_stack_le {d mutated : Doc} {valid io_fail : Bool} {op : TransOp}
    (hm : mutated.undo_stack = d.undo_stack) (h : d.undo_stack.length ≤ UNDO_MAX) :
    ((Doc.editData d valid io_fail mutated op).doc).undo_stack.length ≤ UNDO_MAX := by
  unfold Doc.editData
  split_ifs <;> first
    | exact h
    | exact transactStep_stack_le hm h

theorem editMeta_stack_le {d : Doc} {mutated : Option Doc}
    (hb : ∀ m, mutated = some m → m.undo_stack = d.undo_stack)
    (h : d.undo_stack.length ≤ UNDO_MAX) :
    ((Doc.editMeta d mutated).doc).undo_stack.length ≤ UNDO_MAX := by
  cases hm : mutated with
  | none => simpa [Doc.editMeta, EditResult.doc] using h
  | some m =>
    simp only [Doc.editMeta, EditResult.doc]
    exact transactStep_stack_le (hb m hm) h

/-- No primitive edit, whatever its outcome, grows the undo stack past
`UNDO_MAX`. -/
theorem applyEdit_stack_le (d : Doc) (e : Edit) (h : d.undo_stack.length ≤ UNDO_MAX) :
    ((d.applyEdit e).doc).undo_stack.length ≤ UNDO_MAX := by
  cases e with
  | overwrite off data p s => exact editData_stack_le rfl h
  | insert off data p s => exact editData_stack_le rfl h
  | erase off len p s => exact editData_stack_le rfl h
  | replace off oldLen data p s => exact editData_stack_le rfl h
  | setComment off len text =>
    refine editMeta_stack_le ?_ h
    intro m hm
    split at hm
    · cases hn : nmSet d.comments off len text with
      | none => rw [hn] at hm; simp at hm
      | some mm => rw [hn] at hm; simp at hm; rw [← hm]
    · simp at hm
  | eraseComment off len =>
    refine editMeta_stack_le ?_ h
    intro m hm
    cases hn : nmErase d.comments off len with
    | none => rw [hn] at hm; simp at hm
    | some mm => rw [hn] at hm; simp at hm; rw [← hm]
  | setHighlight off len colour =>
    refine editMeta_stack_le ?_ h
    intro m hm
    split at hm
    · cases hn : nmSet d.highlights off len colour with
      | none => rw [hn] at hm; simp at hm
      | some mm => rw [hn] at hm; simp at hm; rw [← hm]
    · simp at hm
  | eraseHighlight off len =>
    refine editMeta_stack_le ?_ h
    intro m hm
    cases hn : nmErase d.highlights off len with
    | none => rw [hn] at hm; simp at hm
    | some mm => rw [hn] at hm; simp at hm; rw [← hm]
  | setDataType off len ty =>
    refine editMeta_stack_le ?_ h
    intro m hm
    split at hm
    · simp at hm; rw [← hm]
    · simp at hm
  | setVirtMapping real virt len =>
    refine editMeta_stack_le ?_ h
    intro m hm
    split at hm
    · simp at hm
    · simp at hm; rw [← hm]
  | clearVirtMappingR real len =>
    simp only [Doc.applyEdit, Doc.clear_virt_mapping_r]
    refine editMeta_stack_le ?_ h
    intro m hm
    simp at hm
    rw [← hm]
  | clearVirtMappingV virt len =>
    simp only [Doc.applyEdit, Doc.clear_virt_mapping_v]
    refine editMeta_stack_le ?_ h
    intro m hm
    simp at hm
    rw [← hm]

theorem undo_nil {d : Doc} (h : d.undo_stack = []) : d.undo = d := by
  unfold Doc.undo
  rw [h]

/-- Unfolding of `Doc.redo` on a known non-empty redo stack. -/
theorem redo_spec (m : Doc) (t : Transaction) (tail : List Transaction)
    (h : m.redo_stack = t :: tail) :
    m.redo =
      { m with
        buffer := (runOps t.ops.reverse m.buffer).1
        cpos_off := t.old_cpos_off
        cursor_state := t.old_cursor_state
        comments := t.old_comments
        highlights := t.old_highlights
        types := t.old_types
        real_to_virt_segs := t.old_real_to_virt_segs
        virt_to_real_segs := t.old_virt_to_real_segs
        redo_stack := tail
        undo_stack :=
          ({ m.snapshot t.desc with ops := (runOps t.ops.reverse m.buffer).2 } ::
            m.undo_stack).take UNDO_MAX } := by
  unfold Doc.redo
  rw [h]

theorem redo_nil {d : Doc} (h : d.redo_stack = []) : d.redo = d := by
  unfold Doc.redo
  rw [h]

/-- C5: the undo stack never exceeds `UNDO_MAX = 64` transactions — every
Document façade operation preserves the bound; `transact_commit` pushes the
completed transaction onto the undo stack truncated to capacity (discarding
the oldest entry on overflow) and clears the redo stack; `transact_rollback`
invokes the open transaction's closures in reverse immediately, restores its
snapshots, and pushes nothing (both stacks are left untouched). -/
theorem undo_stack_bounded_spec (d : Doc) (h : d.undo_stack.length ≤ UNDO_MAX) :
    (∀ a : Action, ((d.stepAction a).undo_stack).length ≤ UNDO_MAX) ∧
    (∀ t, d.open_trans = some t →
      d.transact_commit =
        { d with
          open_trans := none
          undo_stack := (t :: d.undo_stack).take UNDO_MAX
          redo_stack := [] }) ∧
    (∀ t, d.open_trans = some t →
      d.transact_rollback =
        { d with
          buffer := (runOps t.ops.reverse d.buffer).1
          cpos_off := t.old_cpos_off
          cursor_state := t.old_cursor_state
          comments := t.old_comments
          highlights := t.old_highlights
          types := t.old_types
          real_to_virt_segs := t.old_real_to_virt_segs
          virt_to_real_segs := t.old_virt_to_real_segs
          open_trans := none }) := by
  refine ⟨fun a => ?_, fun t ht => ?_, fun t ht => ?_⟩
  · cases a with
    | edit e => exact applyEdit_stack_le d e h
    | undoAct =>
      show d.undo.undo_stack.length ≤ UNDO_MAX
      cases hs : d.undo_stack with
      | nil => rw [undo_nil hs]; exact h
      | cons t rest =>
        rw [undo_spec d t rest hs]
        have hh : rest.length + 1 ≤ UNDO_MAX := by
          rw [hs] at h
          simpa using h
        simpa using by omega
    | redoAct =>
      show d.redo.undo_stack.length ≤ UNDO_MAX
      cases hs : d.redo_stack with
      | nil => rw [redo_nil hs]; exact h
      | cons t rest =>
        rw [redo_spec d t rest hs]
        simp only [List.length_take]
        simp
    | beginAct desc =>
      show (d.transact_begin desc).undo_stack.length ≤ UNDO_MAX
      unfold Doc.transact_begin
      cases ho : d.open_trans <;> simpa using h
    | commitAct =>
      show d.transact_commit.undo_stack.length ≤ UNDO_MAX
      unfold Doc.transact_commit
      cases ho : d.open_trans with
      | none => simpa using h
      | some t =>
        simp only [List.length_take]
        simp
    | rollbackAct =>
      show d.transact_rollback.undo_stack.length ≤ UNDO_MAX
      unfold Doc.transact_rollback
      cases ho : d.open_trans <;> simpa using h
  · unfold Doc.transact_commit
    rw [ht]
  · unfold Doc.transact_rollback
    rw [ht]

/-- A concrete document with an open transaction, for exercising the
transaction machinery. -/
def txDoc : Doc :=
  { newDoc [1, 2, 3] with open_trans := some ((newDoc [1, 2, 3]).snapshot "tx") }

/-- Witness for C5 at a concrete document with an open transaction. -/
theorem undo_stack_bounded_spec_witness :
    ((txDoc.stepAction (.edit (.overwrite 0 [9] (-1) .cstate_current))).undo_stack).length ≤
      UNDO_MAX ∧
    txDoc.transact_commit =
      { txDoc with
        open_trans := none
        undo_stack := ((newDoc [1, 2, 3]).snapshot "tx" :: txDoc.undo_stack).take UNDO_MAX
        redo_stack := [] } :=
  ⟨(undo_stack_bounded_spec txDoc (by decide)).1 (.edit (.overwrite 0 [9] (-1) .cstate_current)),
   (undo_stack_bounded_spec txDoc (by decide)).2.1 ((newDoc [1, 2, 3]).snapshot "tx") rfl⟩

/-- C3 (amended): a `set` on a nested-range map (`set_comment`,
`set_highlight`) whose new range straddles ("partially overlaps") ANY
existing entry is rejected with the map — indeed the whole document — left
unchanged; a `set` whose range is nestable with (equal to, disjoint from, or
in a containment relation with) EVERY existing entry succeeds.  (Being
contained in one existing entry is not by itself enough: the range can still
straddle a sibling entry nested in the same container, see the
counterexample.) -/
theorem nested_set_overlap_spec (d : Doc) (m : NestedMap String) (off len : Nat)
    (text : String) (colour : Nat) :
    ((∃ e ∈ m, nestableB off len e.1.1 e.1.2 = false) → nmSet m off len text = none) ∧
    ((∀ e ∈ m, nestableB off len e.1.1 e.1.2 = true) →
      (nmSet m off len text).isSome = true) ∧
    ((∃ e ∈ d.comments, nestableB off len e.1.1 e.1.2 = false) →
      d.set_comment off len text = .rejected d) ∧
    ((∃ e ∈ d.highlights, nestableB off len e.1.1 e.1.2 = false) →
      d.set_highlight off len colour = .rejected d) := by
  have hall : ∀ (T : Type) (mm : NestedMap T),
      (∃ e ∈ mm, nestableB off len e.1.1 e.1.2 = false) →
      mm.all (fun e => nestableB off len e.1.1 e.1.2) = false := by
    intro T mm ⟨e, he, hbad⟩
    rw [← Bool.not_eq_true, List.all_eq_true]
    intro hcontra
    exact absurd (hcontra e he) (by simp [hbad])
  refine ⟨fun hx => ?_, fun hx => ?_, fun hx => ?_, fun hx => ?_⟩
  · unfold nmSet
    rw [hall String m hx]
    simp
  · unfold nmSet
    rw [if_pos (List.all_eq_true.mpr hx)]
    simp
  · unfold Doc.set_comment Doc.editMeta
    split_ifs with hb
    · unfold nmSet
      rw [hall String d.comments hx]
      simp
    · simp
  · unfold Doc.set_highlight Doc.editMeta
    split_ifs with hb
    · unfold nmSet
      rw [hall Nat d.highlights hx]
      simp
    · simp

/-- Counterexample for C3 as frozen: the claim's "a set whose range is fully
contained in an existing entry succeeds" fails when the new range, although
contained in one entry, straddles a sibling entry: with entries `[0,10)` and
`[2,4)`, setting `[3,6)` is contained in `[0,10)` yet rejected. -/
theorem nested_set_overlap_cex :
    nmSet [((0, 10), "a"), ((2, 2), "b")] 3 3 "c" = none ∧
    (0 ≤ 3 ∧ 3 + 3 ≤ 0 + 10) := by
  decide

/-- A concrete document carrying the spec's example comment entry `[10,20)`
(offset 10, length 10). -/
def exDoc : Doc :=
  { newDoc (List.replicate 30 0) with comments := [((10, 10), "x")] }

/-- Witness for C3 at the spec's own example: with an existing entry
`[10, 20)`, `set(15, 10)` (a straddle) is rejected and the document is
unchanged, while `set(12, 3)` (nested) succeeds. -/
theorem nested_set_overlap_spec_witness :
    nmSet [((10, 10), "x")] 15 10 "v" = none ∧
    (nmSet [((10, 10), "x")] 12 3 "v").isSome = true ∧
    exDoc.set_comment 15 10 "v" = .rejected exDoc :=
  ⟨(nested_set_overlap_spec exDoc [((10, 10), "x")] 15 10 "v" 0).1
      ⟨((10, 10), "x"), by decide, by decide⟩,
   (nested_set_overlap_spec exDoc [((10, 10), "x")] 12 3 "v" 0).2.1 (by decide),
   (nested_set_overlap_spec exDoc [((10, 10), "x")] 15 10 "v" 0).2.2.1
      ⟨((10, 10), "x"), by decide, by decide⟩⟩

/-- The entries of a `RangeMap` are pairwise disjoint (the structural
invariant of spec section 3). -/
def rmPairwiseDisjoint {T : Type} (m : RangeMap T) : Prop :=
  m.Pairwise (fun a b => a.1.1 + a.1.2 ≤ b.1.1 ∨ b.1.1 + b.1.2 ≤ a.1.1)

/-- One segment of a base-offset map is inverted pointwise by the opposite
map: every translated address of the segment lies in some segment of the
opposite map which translates it back. -/
def segInverts (m : RangeMap Nat) (e : (Nat × Nat) × Nat) : Prop :=
  ∀ i, i < e.1.2 →
    ∃ e' ∈ m, e'.1.1 ≤ e.2 + i ∧ e.2 + i < e'.1.1 + e'.1.2 ∧
      e'.2 + (e.2 + i - e'.1.1) = e.1.1 + i

/-- Modelled from the spec: the `VirtualAddressMap` invariant (spec section
3): both maps are well-formed (disjoint segments) and each is the exact
pointwise inverse of the other across the full mapped length. -/
def VirtMapInv (d : Doc) : Prop :=
  rmPairwiseDisjoint d.real_to_virt_segs ∧ rmPairwiseDisjoint d.virt_to_real_segs ∧
    (∀ e ∈ d.real_to_virt_segs, segInverts d.virt_to_real_segs e) ∧
    (∀ e ∈ d.virt_to_real_segs, segInverts d.real_to_virt_segs e)

instance (d : Doc) : Decidable (VirtMapInv d) := by
  unfold VirtMapInv rmPairwiseDisjoint segInverts
  infer_instance

theorem rmFindSeg_some {T : Type} {m : RangeMap T} {x : Nat} {e : (Nat × Nat) × T}
    (h : rmFindSeg m x = some e) :
    e ∈ m ∧ e.1.1 ≤ x ∧ x < e.1.1 + e.1.2 := by
  induction m with
  | nil => cases h
  | cons f rest ih =>
    rw [rmFindSeg] at h
    split_ifs at h with hf
    · cases h
      exact ⟨List.mem_cons_self _ _, hf.1, hf.2⟩
    · have := ih h
      exact ⟨List.mem_cons_of_mem _ this.1, this.2⟩

/-- On a disjoint map, lookup finds exactly the member segment containing the
queried address. -/
theorem rmFindSeg_of_mem {T : Type} {m : RangeMap T} (hdisj : rmPairwiseDisjoint m)
    {e : (Nat × Nat) × T} (he : e ∈ m) {x : Nat} (hx1 : e.1.1 ≤ x)
    (hx2 : x < e.1.1 + e.1.2) :
    rmFindSeg m x = some e := by
  induction m with
  | nil => cases he
  | cons f rest ih =>
    rw [rmFindSeg]
    rcases List.mem_cons.mp he with rfl | hrest
    · rw [if_pos ⟨hx1, hx2⟩]
    · have hdf := (List.pairwise_cons.mp hdisj).1 e hrest
      rw [if_neg (by omega)]
      exact ih (List.pairwise_cons.mp hdisj).2 hrest

/-- C4: on a document whose virtual address map invariant holds, the two
translations are mutually inverse on their mapped segments, and are the
identity off them: for a real offset inside a mapped segment
`virt_to_real_offset (real_to_virt_offset r) = r` and symmetrically; for an
offset no segment covers, the translation returns the offset itself. -/
theorem virt_map_inverse_spec (d : Doc) (hinv : VirtMapInv d) :
    (∀ r, (rmFindSeg d.real_to_virt_segs r).isSome = true →
      d.virt_to_real_offset (d.real_to_virt_offset r) = r) ∧
    (∀ v, (rmFindSeg d.virt_to_real_segs v).isSome = true →
      d.real_to_virt_offset (d.virt_to_real_offset v) = v) ∧
    (∀ r, rmFindSeg d.real_to_virt_segs r = none → d.real_to_virt_offset r = r) ∧
    (∀ v, rmFindSeg d.virt_to_real_segs v = none → d.virt_to_real_offset v = v) := by
  obtain ⟨hd1, hd2, hinv1, hinv2⟩ := hinv
  refine ⟨fun r hsome => ?_, fun v hsome => ?_, fun r hnone => ?_, fun v hnone => ?_⟩
  · obtain ⟨e, heq⟩ := Option.isSome_iff_exists.mp hsome
    obtain ⟨hmem, hx1, hx2⟩ := rmFindSeg_some heq
    obtain ⟨e', hmem', h1, h2, h3⟩ := hinv1 e hmem (r - e.1.1) (by omega)
    have hr2v : d.real_to_virt_offset r = e.2 + (r - e.1.1) := by
      unfold Doc.real_to_virt_offset
      rw [heq]
    rw [hr2v]
    unfold Doc.virt_to_real_offset
    rw [rmFindSeg_of_mem hd2 hmem' h1 h2]
    show e'.2 + (e.2 + (r - e.1.1) - e'.1.1) = r
    omega
  · obtain ⟨e, heq⟩ := Option.isSome_iff_exists.mp hsome
    obtain ⟨hmem, hx1, hx2⟩ := rmFindSeg_some heq
    obtain ⟨e', hmem', h1, h2, h3⟩ := hinv2 e hmem (v - e.1.1) (by omega)
    have hv2r : d.virt_to_real_offset v = e.2 + (v - e.1.1) := by
      unfold Doc.virt_to_real_offset
      rw [heq]
    rw [hv2r]
    unfold Doc.real_to_virt_offset
    rw [rmFindSeg_of_mem hd1 hmem' h1 h2]
    show e'.2 + (e.2 + (v - e.1.1) - e'.1.1) = v
    omega
  · unfold Doc.real_to_virt_offset
    rw [hnone]
  · unfold Doc.virt_to_real_offset
    rw [hnone]

/-- A concrete document mapping real `[10, 15)` to virtual `[100, 105)`. -/
def mappedDoc : Doc :=
  { newDoc (List.replicate 20 0) with
    real_to_virt_segs := [((10, 5), 100)]
    virt_to_real_segs := [((100, 5), 10)] }

/-- Witness for C4: round trips through the mapped segment at real offset 12
and virtual offset 102, and identity at unmapped real offset 3. -/
theorem virt_map_inverse_spec_witness :
    mappedDoc.virt_to_real_offset (mappedDoc.real_to_virt_offset 12) = 12 ∧
    mappedDoc.real_to_virt_offset (mappedDoc.virt_to_real_offset 102) = 102 ∧
    mappedDoc.real_to_virt_offset 3 = 3 :=
  ⟨(virt_map_inverse_spec mappedDoc (by decide)).1 12 (by decide),
   (virt_map_inverse_spec mappedDoc (by decide)).2.1 102 (by decide),
   (virt_map_inverse_spec mappedDoc (by decide)).2.2.1 3 (by decide)⟩

/-! ### Lookup lemmas for `rmSetRange` (used by the dirty-tracking claim) -/

theorem rmValAt_cons {T : Type} (e : (Nat × Nat) × T) (m : RangeMap T) (x : Nat) :
    rmValAt (e :: m) x =
      if e.1.1 ≤ x ∧ x < e.1.1 + e.1.2 then some e.2 else rmValAt m x :=
  rfl

theorem rmValAt_append {T : Type} (l1 l2 : RangeMap T) (x : Nat) :
    rmValAt (l1 ++ l2) x = (rmValAt l1 x).or (rmValAt l2 x) := by
  induction l1 with
  | nil => simp [rmValAt]
  | cons e rest ih =>
    rw [List.cons_append, rmValAt_cons, rmValAt_cons]
    split_ifs with h
    · rfl
    · exact ih

/-- Every piece produced by clearing a span out of an entry stays within the
entry's range and avoids the cleared span. -/
theorem rmClearEntry_covering {T : Type} {off len : Nat} {e e' : (Nat × Nat) × T}
    (he' : e' ∈ rmClearEntry off len e) {x : Nat}
    (hx : e'.1.1 ≤ x ∧ x < e'.1.1 + e'.1.2) :
    (e.1.1 ≤ x ∧ x < e.1.1 + e.1.2) ∧ (x < off ∨ off + len ≤ x) := by
  unfold rmClearEntry at he'
  rcases List.mem_append.mp he' with hl | hr
  · split_ifs at hl with hc
    · rw [List.mem_singleton] at hl
      subst hl
      simp only at hx
      omega
    · cases hl
  · split_ifs at hr with hc
    · rw [List.mem_singleton] at hr
      subst hr
      simp only at hx
      omega
    · cases hr

theorem rmValAt_eq_none {T : Type} {m : RangeMap T} {x : Nat}
    (h : ∀ e ∈ m, ¬(e.1.1 ≤ x ∧ x < e.1.1 + e.1.2)) :
    rmValAt m x = none := by
  induction m with
  | nil => rfl
  | cons e rest ih =>
    rw [rmValAt_cons, if_neg (h e (List.mem_cons_self _ _))]
    exact ih (fun f hf => h f (List.mem_cons_of_mem _ hf))

theorem rmValAt_clear_inside {T : Type} (m : RangeMap T) {off len x : Nat}
    (h1 : off ≤ x) (h2 : x < off + len) :
    rmValAt (m.flatMap (rmClearEntry off len)) x = none := by
  refine rmValAt_eq_none (fun e' he' hx => ?_)
  obtain ⟨e, -, hpe⟩ := List.mem_flatMap.mp he'
  have := (rmClearEntry_covering hpe hx).2
  omega

/-- Clearing a span changes no lookup outside that span: the piece of the
entry that covered the queried offset survives with the same value. -/
theorem rmValAt_clear_outside {T : Type} (m : RangeMap T) {off len x : Nat}
    (h : x < off ∨ off + len ≤ x) :
    rmValAt (m.flatMap (rmClearEntry off len)) x = rmValAt m x := by
  induction m with
  | nil => rfl
  | cons e rest ih =>
    rw [List.flatMap_cons, rmValAt_append, rmValAt_cons, ih]
    by_cases hp : e.1.1 ≤ x ∧ x < e.1.1 + e.1.2
    · rw [if_pos hp]
      have hpieces : rmValAt (rmClearEntry off len e) x = some e.2 := by
        unfold rmClearEntry
        dsimp only
        split_ifs with hc1 hc2 hc2 <;>
          simp only [List.singleton_append, List.nil_append, List.append_nil,
            rmValAt_cons, rmValAt] <;>
          (try split_ifs) <;>
          first
            | rfl
            | (exfalso; omega)
      rw [hpieces]
      rfl
    · rw [if_neg hp]
      have hpieces : rmValAt (rmClearEntry off len e) x = none := by
        refine rmValAt_eq_none (fun e' he' hx => ?_)
        exact absurd ((rmClearEntry_covering he' hx).1) hp
      rw [hpieces]
      rfl

theorem rmValAt_insertSorted_covering {T : Type} {eo el : Nat} {ev : T}
    {m : RangeMap T} {x : Nat} (he : eo ≤ x ∧ x < eo + el)
    (hm : rmValAt m x = none) :
    rmValAt (rmInsertSorted ((eo, el), ev) m) x = some ev := by
  induction m with
  | nil => exact if_pos he
  | cons f rest ih =>
    rw [rmValAt_cons] at hm
    have hf : ¬(f.1.1 ≤ x ∧ x < f.1.1 + f.1.2) := by
      intro hc
      rw [if_pos hc] at hm
      cases hm
    rw [if_neg hf] at hm
    unfold rmInsertSorted
    split_ifs with hle
    · rw [rmValAt_cons, if_pos he]
    · rw [rmValAt_cons, if_neg hf]
      exact ih hm

theorem rmValAt_insertSorted_not_covering {T : Type} {eo el : Nat} {ev : T}
    {m : RangeMap T} {x : Nat} (he : ¬(eo ≤ x ∧ x < eo + el)) :
    rmValAt (rmInsertSorted ((eo, el), ev) m) x = rmValAt m x := by
  induction m with
  | nil => exact if_neg he
  | cons f rest ih =>
    unfold rmInsertSorted
    split_ifs with hle
    · rw [rmValAt_cons, if_neg he]
    · rw [rmValAt_cons, rmValAt_cons, ih]

theorem rmValAt_mergeAdj {T : Type} [DecidableEq T] (m : RangeMap T) (x : Nat) :
    rmValAt (rmMergeAdj m) x = rmValAt m x := by
  induction m with
  | nil => rfl
  | cons e rest ih =>
    unfold rmMergeAdj
    cases hmr : rmMergeAdj rest with
    | nil =>
      dsimp only
      rw [hmr] at ih
      rw [rmValAt_cons, rmValAt_cons, ← ih]
    | cons f rest' =>
      dsimp only
      rw [hmr] at ih
      split_ifs with hmerge
      · rw [rmValAt_cons, rmValAt_cons, ← ih, rmValAt_cons]
        dsimp only
        split_ifs <;>
          first
            | rfl
            | (exfalso; omega)
            | (rw [hmerge.2])
      · rw [rmValAt_cons, rmValAt_cons, rmValAt_cons, ← ih, rmValAt_cons]

/-- `set_range` makes every offset inside the assigned span look up the new
value. -/
theorem rmValAt_setRange_inside {T : Type} [DecidableEq T] (m : RangeMap T)
    {off len : Nat} (v : T) {x : Nat} (h1 : off ≤ x) (h2 : x < off + len) :
    rmValAt (rmSetRange m off len v) x = some v := by
  unfold rmSetRange
  rw [if_neg (by omega : ¬len = 0), rmValAt_mergeAdj]
  exact rmValAt_insertSorted_covering ⟨h1, h2⟩ (rmValAt_clear_inside m h1 h2)

/-- `set_range` leaves every lookup outside the assigned span unchanged. -/
theorem rmValAt_setRange_outside {T : Type} [DecidableEq T] (m : RangeMap T)
    {off len : Nat} (v : T) {x : Nat} (h : x < off ∨ off + len ≤ x) :
    rmValAt (rmSetRange m off len v) x = rmValAt m x := by
  unfold rmSetRange
  split_ifs with h0
  · rfl
  · rw [rmValAt_mergeAdj, rmValAt_insertSorted_not_covering (by omega),
      rmValAt_clear_outside m h]


theorem transactStep_proj (d0 mutated : Doc) (op : TransOp) :
    (Doc.transactStep d0 mutated op).data_seq = mutated.data_seq ∧
    (Doc.transactStep d0 mutated op).saved_seq = mutated.saved_seq ∧
    (Doc.transactStep d0 mutated op).buffer_seq = mutated.buffer_seq := by
  unfold Doc.transactStep
  cases d0.open_trans <;> exact ⟨rfl, rfl, rfl⟩

/-- C6: on a freshly saved document (every byte's stamp at or below the
save watermark, offset 4 stamped), `overwrite_data(5, 2 bytes)` makes bytes
5 and 6 dirty while byte 4 stays clean; after `mark_saved()` all three are
clean again; and in general a byte is dirty iff its `data_seq` stamp (or the
current `buffer_seq` where unstamped) exceeds `saved_seq`. -/
theorem dirty_tracking_spec (d : Doc) (x y : Nat)
    (hsave : d.saved_seq = d.buffer_seq)
    (hcov : (rmValAt d.data_seq 4).isSome = true)
    (hclean : d.is_byte_dirty 4 = false)
    (hlen : 7 ≤ d.buffer.length) :
    (((d.overwrite_data 5 [x, y] (-1) .cstate_current false).doc).is_byte_dirty 5 = true ∧
     ((d.overwrite_data 5 [x, y] (-1) .cstate_current false).doc).is_byte_dirty 6 = true ∧
     ((d.overwrite_data 5 [x, y] (-1) .cstate_current false).doc).is_byte_dirty 4 = false) ∧
    (((d.overwrite_data 5 [x, y] (-1) .cstate_current false).doc).mark_saved.is_byte_dirty 5
        = false ∧
     ((d.overwrite_data 5 [x, y] (-1) .cstate_current false).doc).mark_saved.is_byte_dirty 6
        = false ∧
     ((d.overwrite_data 5 [x, y] (-1) .cstate_current false).doc).mark_saved.is_byte_dirty 4
        = false) ∧
    (∀ (d' : Doc) (o : Nat),
      d'.is_byte_dirty o = true ↔
        d'.saved_seq < (rmValAt d'.data_seq o).getD d'.buffer_seq) := by
  have hval : 5 + ([x, y] : List Nat).length ≤ d.buffer.length := by
    simp only [List.length_cons, List.length_nil]
    omega
  have hD : (d.overwrite_data 5 [x, y] (-1) .cstate_current false).doc =
      Doc.transactStep d
        { d with
          buffer := spliceBuf d.buffer 5 ([x, y] : List Nat).length [x, y]
          buffer_seq := d.buffer_seq + 1
          data_seq := rmSetRange d.data_seq 5 ([x, y] : List Nat).length (d.buffer_seq + 1)
          cpos_off := applyCpos d.cpos_off (-1)
          cursor_state := applyCstate d.cursor_state .cstate_current }
        (.spliceBytes 5 ([x, y] : List Nat).length (readBuf d.buffer 5 ([x, y] : List Nat).length)) := by
    unfold Doc.overwrite_data Doc.editData
    rw [if_pos (decide_eq_true hval)]
    simp [EditResult.doc]
  have hds : (d.overwrite_data 5 [x, y] (-1) .cstate_current false).doc.data_seq =
      rmSetRange d.data_seq 5 2 (d.buffer_seq + 1) := by
    rw [hD]
    exact (transactStep_proj _ _ _).1
  have hss : (d.overwrite_data 5 [x, y] (-1) .cstate_current false).doc.saved_seq =
      d.saved_seq := by
    rw [hD]
    exact (transactStep_proj _ _ _).2.1
  have hbs : (d.overwrite_data 5 [x, y] (-1) .cstate_current false).doc.buffer_seq =
      d.buffer_seq + 1 := by
    rw [hD]
    exact (transactStep_proj _ _ _).2.2
  obtain ⟨s4, hs4⟩ := Option.isSome_iff_exists.mp hcov
  have hs4le : ¬(d.saved_seq < s4) := by
    unfold Doc.is_byte_dirty at hclean
    rw [hs4] at hclean
    simpa using hclean
  refine ⟨⟨?_, ?_, ?_⟩, ⟨?_, ?_, ?_⟩, fun d' o => by simp [Doc.is_byte_dirty]⟩
  · unfold Doc.is_byte_dirty
    rw [hds, hss, hbs, rmValAt_setRange_inside _ _ (by omega) (by omega)]
    simp [hsave]
  · unfold Doc.is_byte_dirty
    rw [hds, hss, hbs, rmValAt_setRange_inside _ _ (by omega) (by omega)]
    simp [hsave]
  · unfold Doc.is_byte_dirty
    rw [hds, hss, hbs, rmValAt_setRange_outside _ _ (by omega), hs4]
    simpa using hs4le
  · unfold Doc.is_byte_dirty Doc.mark_saved
    simp only
    rw [hds, hbs, rmValAt_setRange_inside _ _ (by omega) (by omega)]
    simp
  · unfold Doc.is_byte_dirty Doc.mark_saved
    simp only
    rw [hds, hbs, rmValAt_setRange_inside _ _ (by omega) (by omega)]
    simp
  · unfold Doc.is_byte_dirty Doc.mark_saved
    simp only
    rw [hds, hbs, rmValAt_setRange_outside _ _ (by omega), hs4]
    simp
    omega

/-- Witness for C6 on a concrete freshly opened 8-byte document. -/
theorem dirty_tracking_spec_witness :
    (((newDoc (List.replicate 8 0)).overwrite_data 5 [65, 66] (-1) .cstate_current
        false).doc).is_byte_dirty 5 = true ∧
    (((newDoc (List.replicate 8 0)).overwrite_data 5 [65, 66] (-1) .cstate_current
        false).doc).is_byte_dirty 4 = false ∧
    (((newDoc (List.replicate 8 0)).overwrite_data 5 [65, 66] (-1) .cstate_current
        false).doc).mark_saved.is_byte_dirty 5 = false :=
  ⟨(dirty_tracking_spec (newDoc (List.replicate 8 0)) 65 66 rfl (by decide) (by decide)
      (by decide)).1.1,
   (dirty_tracking_spec (newDoc (List.replicate 8 0)) 65 66 rfl (by decide) (by decide)
      (by decide)).1.2.2,
   (dirty_tracking_spec (newDoc (List.replicate 8 0)) 65 66 rfl (by decide) (by decide)
      (by decide)).2.1.1⟩

theorem nmShiftInsert_mem {T : Type} {m : NestedMap T} {off len : Nat}
    {e : (Nat × Nat) × T} (he : e ∈ m) (hoff : off ≤ e.1.1) :
    ((e.1.1 + len, e.1.2), e.2) ∈ nmShiftInsert m off len := by
  refine List.mem_map.mpr ⟨e, he, ?_⟩
  rw [if_pos hoff]

theorem rmShiftInsert_mem {T : Type} {m : RangeMap T} {off len : Nat}
    {e : (Nat × Nat) × T} (he : e ∈ m) (hoff : off ≤ e.1.1) :
    ((e.1.1 + len, e.1.2), e.2) ∈ rmShiftInsert m off len := by
  refine List.mem_map.mpr ⟨e, he, ?_⟩
  rw [if_pos hoff]

theorem nmShiftErase_mem {T : Type} {m : NestedMap T} {off len : Nat}
    {e : (Nat × Nat) × T} (he : e ∈ m) (hoff : off + len ≤ e.1.1) :
    ((e.1.1 - len, e.1.2), e.2) ∈ nmShiftErase m off len := by
  refine List.mem_filterMap.mpr ⟨e, he, ?_⟩
  dsimp only
  have hov : min (e.1.1 + e.1.2) (off + len) - max e.1.1 off = 0 := by omega
  rw [hov, if_neg (by omega), if_pos hoff]
  simp

theorem rmShiftErase_mem {T : Type} {m : RangeMap T} {off len : Nat}
    {e : (Nat × Nat) × T} (he : e ∈ m) (hoff : off + len ≤ e.1.1) :
    ((e.1.1 - len, e.1.2), e.2) ∈ rmShiftErase m off len := by
  refine List.mem_filterMap.mpr ⟨e, he, ?_⟩
  dsimp only
  have hov : min (e.1.1 + e.1.2) (off + len) - max e.1.1 off = 0 := by omega
  rw [hov, if_neg (by omega), if_pos hoff]
  simp

theorem transactStep_meta_proj (d0 mutated : Doc) (op : TransOp) :
    (Doc.transactStep d0 mutated op).comments = mutated.comments ∧
    (Doc.transactStep d0 mutated op).highlights = mutated.highlights ∧
    (Doc.transactStep d0 mutated op).types = mutated.types := by
  unfold Doc.transactStep
  cases d0.open_trans <;> exact ⟨rfl, rfl, rfl⟩

/-- Undoing a successful one-shot primitive edit restores the comment,
highlight and type maps from the transaction's snapshots. -/
theorem undo_restores_meta (d : Doc) (e : Edit) (d1 : Doc) (hopen : d.open_trans = none)
    (h : d.applyEdit e = .ok d1) :
    d1.undo.comments = d.comments ∧ d1.undo.highlights = d.highlights ∧
      d1.undo.types = d.types := by
  obtain ⟨op, hopen1, hstack, hbuf⟩ := applyEdit_ok d e d1 hopen h
  have hstack' : d1.undo_stack =
      { d.snapshot "change data" with ops := [op] } ::
        d.undo_stack.take (UNDO_MAX - 1) := by
    rw [hstack, show (UNDO_MAX : Nat) = (UNDO_MAX - 1) + 1 from rfl, List.take_succ_cons]
    norm_num
  rw [undo_spec d1 _ _ hstack']
  exact ⟨rfl, rfl, rfl⟩

/-- C7: inserting (or erasing) bytes shifts every stored comment, highlight
and type range whose offset is at or after the edit point (past the erased
span, for an erase) by the inserted (negated erased) length, and a single
`undo()` restores all three maps to their pre-edit contents. -/
theorem range_shift_spec (d : Doc) (off len : Nat) (data : List Nat) (ncpos : Int)
    (ncs : CursorState) (hopen : d.open_trans = none) :
    (∀ d1, d.insert_data off data ncpos ncs false = .ok d1 →
      (∀ e ∈ d.comments, off ≤ e.1.1 →
        ((e.1.1 + data.length, e.1.2), e.2) ∈ d1.comments) ∧
      (∀ e ∈ d.highlights, off ≤ e.1.1 →
        ((e.1.1 + data.length, e.1.2), e.2) ∈ d1.highlights) ∧
      (∀ e ∈ d.types, off ≤ e.1.1 →
        ((e.1.1 + data.length, e.1.2), e.2) ∈ d1.types) ∧
      d1.undo.comments = d.comments ∧ d1.undo.highlights = d.highlights ∧
        d1.undo.types = d.types) ∧
    (∀ d1, d.erase_data off len ncpos ncs false = .ok d1 →
      (∀ e ∈ d.comments, off + len ≤ e.1.1 →
        ((e.1.1 - len, e.1.2), e.2) ∈ d1.comments) ∧
      (∀ e ∈ d.highlights, off + len ≤ e.1.1 →
        ((e.1.1 - len, e.1.2), e.2) ∈ d1.highlights) ∧
      (∀ e ∈ d.types, off + len ≤ e.1.1 →
        ((e.1.1 - len, e.1.2), e.2) ∈ d1.types) ∧
      d1.undo.comments = d.comments ∧ d1.undo.highlights = d.highlights ∧
        d1.undo.types = d.types) := by
  constructor
  · intro d1 h
    have hmeta := undo_restores_meta d (.insert off data ncpos ncs) d1 hopen h
    simp only [Doc.insert_data] at h
    obtain ⟨hv, -, hd1⟩ := editData_ok h
    subst hd1
    refine ⟨?_, ?_, ?_, hmeta.1, hmeta.2.1, hmeta.2.2⟩
    · intro e he hoff
      rw [(transactStep_meta_proj _ _ _).1]
      exact nmShiftInsert_mem he hoff
    · intro e he hoff
      rw [(transactStep_meta_proj _ _ _).2.1]
      exact nmShiftInsert_mem he hoff
    · intro e he hoff
      rw [(transactStep_meta_proj _ _ _).2.2]
      exact rmShiftInsert_mem he hoff
  · intro d1 h
    have hmeta := undo_restores_meta d (.erase off len ncpos ncs) d1 hopen h
    simp only [Doc.erase_data] at h
    obtain ⟨hv, -, hd1⟩ := editData_ok h
    subst hd1
    refine ⟨?_, ?_, ?_, hmeta.1, hmeta.2.1, hmeta.2.2⟩
    · intro e he hoff
      rw [(transactStep_meta_proj _ _ _).1]
      exact nmShiftErase_mem he hoff
    · intro e he hoff
      rw [(transactStep_meta_proj _ _ _).2.1]
      exact nmShiftErase_mem he hoff
    · intro e he hoff
      rw [(transactStep_meta_proj _ _ _).2.2]
      exact rmShiftErase_mem he hoff

/-- A concrete document carrying the spec's example comment at `(100, 5)`. -/
def shiftDoc : Doc :=
  { newDoc (List.replicate 105 0) with comments := [((100, 5), "c")] }

/-- Witness for C7 at the spec's example: a comment at `(100, 5)` moves to
`(120, 5)` under `insert_data(50, 20 bytes)` and `undo()` restores it. -/
theorem range_shift_spec_witness :
    ((120, 5), "c") ∈
      ((shiftDoc.insert_data 50 (List.replicate 20 7) (-1) .cstate_current
          false).doc).comments ∧
    ((shiftDoc.insert_data 50 (List.replicate 20 7) (-1) .cstate_current
        false).doc).undo.comments = [((100, 5), "c")] :=
  have hok : shiftDoc.insert_data 50 (List.replicate 20 7) (-1) .cstate_current false =
      .ok ((shiftDoc.insert_data 50 (List.replicate 20 7) (-1) .cstate_current
        false).doc) := by
    set_option maxRecDepth 10000 in decide
  have h := (range_shift_spec shiftDoc 50 0 (List.replicate 20 7) (-1) .cstate_current
    rfl).1 _ hok
  ⟨h.1 ((100, 5), "c") (by decide) (by decide), h.2.2.2.1⟩

/-- C8: for integers `a`, `b` within the bounds of an integral type
`[Tmin, Tmax]`, `add_clamp_overflow` returns their sum with the overflow flag
clear when the mathematical sum is in range, and otherwise clamps to `Tmax`
(sum too large) or `Tmin` (sum too small) with the overflow flag set. -/
theorem add_clamp_overflow_spec (a b Tmin Tmax : Int)
    (ha1 : Tmin ≤ a) (ha2 : a ≤ Tmax) (hb1 : Tmin ≤ b) (hb2 : b ≤ Tmax) :
    (Tmin ≤ a + b → a + b ≤ Tmax → add_clamp_overflow a b Tmin Tmax = (a + b, false)) ∧
    (Tmax < a + b → add_clamp_overflow a b Tmin Tmax = (Tmax, true)) ∧
    (a + b < Tmin → add_clamp_overflow a b Tmin Tmax = (Tmin, true)) := by
  by_cases hs : (a < 0) ↔ (b < 0)
  · have he : (a < 0) = (b < 0) := propext hs
    unfold add_clamp_overflow
    rw [if_neg (by simp [he])]
    split_ifs with h2 h3 h3 <;>
      refine ⟨fun u v => ?_, fun u => ?_, fun u => ?_⟩ <;>
        first
          | rfl
          | (exfalso; omega)
  · unfold add_clamp_overflow
    rw [if_pos (fun he => hs (iff_of_eq he))]
    refine ⟨fun u v => rfl, fun u => ?_, fun u => ?_⟩ <;> (exfalso; omega)

/-- Witness for C8 at concrete inputs (int8-style bounds). -/
theorem add_clamp_overflow_spec_witness :
    add_clamp_overflow (100 : Int) 28 (-128) 127 = (127, true) ∧
    add_clamp_overflow (100 : Int) 27 (-128) 127 = (127, false) ∧
    add_clamp_overflow (-100 : Int) (-100) (-128) 127 = (-128, true) :=
  ⟨(add_clamp_overflow_spec 100 28 (-128) 127 (by decide) (by decide) (by decide)
      (by decide)).2.1 (by decide),
   (add_clamp_overflow_spec 100 27 (-128) 127 (by decide) (by decide) (by decide)
      (by decide)).1 (by decide) (by decide),
   (add_clamp_overflow_spec (-100) (-100) (-128) 127 (by decide) (by decide) (by decide)
      (by decide)).2.2 (by decide)⟩

/-- C9: for every offset strictly below `base` or at/above `base + length`,
`CharacterFinder::get_char_range` returns `(-1, -1)` and leaves the caches
untouched, so `get_char_start` and `get_char_length` return `-1` there. -/
theorem get_char_range_out_of_range (cf : CharacterFinder) (decodeLen : Int → Int)
    (read_ok : Bool) (offset : Int)
    (h : offset < cf.base ∨ offset ≥ cf.base + cf.length) :
    get_char_range cf decodeLen read_ok offset = ((-1, -1), cf) ∧
    get_char_start cf decodeLen read_ok offset = -1 ∧
    get_char_length cf decodeLen read_ok offset = -1 := by
  have h1 : get_char_range cf decodeLen read_ok offset = ((-1, -1), cf) := by
    unfold get_char_range
    rw [if_pos h]
  refine ⟨h1, ?_, ?_⟩ <;> simp [get_char_start, get_char_length, h1]

/-- Witness for C9: a finder tracking `[0, 10)` queried at `12` (above the
range) and at `-3` (below it). -/
theorem get_char_range_out_of_range_witness :
    get_char_range ⟨0, 10, 4, [-1, -1], []⟩ (fun _ => 1) true 12 =
        ((-1, -1), ⟨0, 10, 4, [-1, -1], []⟩) ∧
    get_char_start ⟨0, 10, 4, [-1, -1], []⟩ (fun _ => 1) true (-3) = -1 :=
  ⟨(get_char_range_out_of_range ⟨0, 10, 4, [-1, -1], []⟩ (fun _ => 1) true 12
      (by norm_num)).1,
   (get_char_range_out_of_range ⟨0, 10, 4, [-1, -1], []⟩ (fun _ => 1) true (-3)
      (by norm_num)).2.1⟩

/-- C10 (amended): after `set_selection(off, length)` with `length > 0` and a
non-negative `off`, `get_selection_raw` returns `(off, off + length - 1)`;
with `length ≤ 0` (in particular after `clear_selection`) the selection is
empty and `get_selection_raw` returns `(-1, -1)`. -/
theorem set_selection_raw_spec (s : Selection) (off length : Int) :
    (0 < length → 0 ≤ off →
      get_selection_raw (set_selection s off length) = (off, off + length - 1)) ∧
    (length ≤ 0 → get_selection_raw (set_selection s off length) = (-1, -1)) ∧
    get_selection_raw (clear_selection s) = (-1, -1) := by
  refine ⟨fun hl hoff => ?_, fun hl => ?_, ?_⟩
  · have hb : (set_selection s off length).selection_begin = off ∧
        (set_selection s off length).selection_end = off + length - 1 := by
      simp only [set_selection]
      rw [if_pos hl]
      split_ifs <;> exact ⟨rfl, rfl⟩
    simp only [get_selection_raw]
    rw [hb.1, hb.2, if_neg (by omega)]
  · have hb : (set_selection s off length).selection_begin = -1 := by
      simp only [set_selection]
      rw [if_neg (show ¬(length > 0) by omega)]
      split_ifs <;> rfl
    simp only [get_selection_raw]
    rw [hb, if_pos (by norm_num)]
  · have hb : (set_selection s 0 0).selection_begin = -1 := by
      simp only [set_selection]
      rw [if_neg (show ¬((0 : Int) > 0) by omega)]
      split_ifs <;> rfl
    simp only [clear_selection, get_selection_raw]
    rw [hb, if_pos (by norm_num)]

/-- Counterexample for C10 as frozen: a call with `length > 0` but a negative
`off` stores a negative `selection_begin`, which `get_selection_raw` reports
as "no selection" `(-1, -1)` rather than `(off, off + length - 1)`. -/
theorem set_selection_raw_cex :
    ¬(get_selection_raw (set_selection ⟨0, 0, -1, -1, -1⟩ (-5) 3) =
      (-5, -5 + 3 - 1)) := by
  decide

/-- Witness for C10's amended theorem at concrete inputs. -/
theorem set_selection_raw_spec_witness :
    get_selection_raw (set_selection ⟨0, 0, -1, -1, -1⟩ 2 3) = (2, 2 + 3 - 1) ∧
    get_selection_raw (set_selection ⟨0, 0, -1, -1, -1⟩ 7 0) = (-1, -1) :=
  ⟨(set_selection_raw_spec ⟨0, 0, -1, -1, -1⟩ 2 3).1 (by decide) (by decide),
   (set_selection_raw_spec ⟨0, 0, -1, -1, -1⟩ 7 0).2.1 (by decide)⟩

end REHexProof
